import Mathlib

/-!
Verification of the tiflow coordination-plane specification against a shallow
embedding of the source code: the owner/agent scheduling protocol
(cdc/scheduler/agent.go), the checkpoint engine (dm/syncer/checkpoint.go),
the leveldb storage actor (cdc/sorter/leveldb), and the retrying etcd client
(pkg/etcd/client.go).
-/

namespace Tiflow

/-! ## Binlog locations

The structure mirrors the data model of the spec: a watermark location is an
ordered tuple `(file_name, offset, gtid_set?)`. -/

/-- Modelled from the spec: `binlog.Location` (dm/pkg/binlog) is not under
src/; the spec describes it as the ordered tuple
`(file_name: string, offset: u32, gtid_set: optional string)`. -/
structure Location where
  name : String
  pos : Nat
  gtidSet : Option String
  deriving DecidableEq, Repr

/-- Three-way lexicographic comparison of character lists. -/
def compareCharList : List Char → List Char → Int
  | [], [] => 0
  | [], _ :: _ => -1
  | _ :: _, [] => 1
  | a :: as, b :: bs =>
    if a.toNat < b.toNat then -1
    else if b.toNat < a.toNat then 1
    else compareCharList as bs

/-- Three-way lexicographic comparison of strings as integers -1/0/1. -/
def compareStrings (a b : String) : Int :=
  compareCharList a.data b.data

/-- Three-way comparison of optional GTID sets; an absent set sorts first. -/
def compareGTIDSets (a b : Option String) : Int :=
  match a, b with
  | none, none => 0
  | none, some _ => -1
  | some _, none => 1
  | some x, some y => compareStrings x y

/-- Three-way comparison of offsets. -/
def compareNat (x y : Nat) : Int :=
  if x < y then -1 else if y < x then 1 else 0

/-- Lexicographic combination: the second comparison only counts when the
first is a tie. -/
def thenCompare (c n : Int) : Int :=
  if c ≠ 0 then c else n

/-- Modelled from the spec: `binlog.CompareLocation` (dm/pkg/binlog) is not
under src/; the spec says comparison of locations is lexicographic, with a
flag selecting position-only or gtid-aware order. -/
def CompareLocation (a b : Location) (enableGTID : Bool) : Int :=
  thenCompare (compareStrings a.name b.name)
    (thenCompare (compareNat a.pos b.pos)
      (if enableGTID then compareGTIDSets a.gtidSet b.gtidSet else 0))

/-- Modelled from the spec: `binlog.NewLocation(flavor)`, the "fresh"
(zero) location. -/
def Location.fresh : Location := { name := "", pos := 0, gtidSet := none }

/-! ## Table and binlog checkpoints (dm/syncer/checkpoint.go) -/

/-- Stand-in for `*model.TableInfo`; the checkpoint engine only stores and
copies these values, never inspects them. -/
structure TableInfo where
  id : Int
  deriving DecidableEq, Repr

/-- Embeds `tablePoint`: a location paired with the schema snapshot. -/
structure TablePoint where
  location : Location
  ti : Option TableInfo
  deriving DecidableEq, Repr

/-- Embeds `binlogPoint`: a saved point and a flushed point sharing the
gtid-aware flag. -/
structure BinlogPoint where
  savedPoint : TablePoint
  flushedPoint : TablePoint
  enableGTID : Bool
  deriving DecidableEq, Repr

/-- Embeds `newBinlogPoint`. -/
def newBinlogPoint (location flushedLocation : Location) (ti flushedTI : Option TableInfo)
    (enableGTID : Bool) : BinlogPoint :=
  { savedPoint := { location := location, ti := ti }
    flushedPoint := { location := flushedLocation, ti := flushedTI }
    enableGTID := enableGTID }

/-- Error returned by `binlogPoint.save`, mirroring
`terror.ErrCheckpointSaveInvalidPos`. -/
inductive CheckpointError where
  | saveInvalidPos
  deriving DecidableEq, Repr

/-- Embeds `binlogPoint.save`: rejects a location strictly older than the
saved one, otherwise replaces the saved point. -/
def BinlogPoint.save (b : BinlogPoint) (location : Location) (ti : Option TableInfo) :
    Except CheckpointError BinlogPoint :=
  if CompareLocation location b.savedPoint.location b.enableGTID < 0 then
    .error .saveInvalidPos
  else
    .ok { b with savedPoint := { location := location, ti := ti } }

/-- Embeds `binlogPoint.flushBy`. -/
def BinlogPoint.flushBy (b : BinlogPoint) (tp : TablePoint) : BinlogPoint :=
  { b with flushedPoint := tp }

/-- Embeds `binlogPoint.flush`. -/
def BinlogPoint.flush (b : BinlogPoint) : BinlogPoint :=
  b.flushBy b.savedPoint

/-- Embeds `binlogPoint.outOfDateBy`. -/
def BinlogPoint.outOfDateBy (b : BinlogPoint) (pos : Location) : Bool :=
  decide (0 < CompareLocation pos b.flushedPoint.location b.enableGTID)

/-- Embeds `binlogPoint.outOfDate`. -/
def BinlogPoint.outOfDate (b : BinlogPoint) : Bool :=
  b.outOfDateBy b.savedPoint.location

/-- Embeds `binlogPoint.MySQLLocation`. -/
def BinlogPoint.MySQLLocation (b : BinlogPoint) : Location :=
  b.savedPoint.location

/-- Embeds `binlogPoint.FlushedMySQLLocation`. -/
def BinlogPoint.FlushedMySQLLocation (b : BinlogPoint) : Location :=
  b.flushedPoint.location

/-! ## Owner/agent protocol (cdc/scheduler/agent.go) -/

abbrev CaptureID := String
abbrev TableID := Int

/-- Embeds `ownerInfo`. -/
structure OwnerInfo where
  ownerCaptureID : CaptureID
  ownerRev : Int
  deriving DecidableEq, Repr

/-- Embeds `agentOperationStatus`. -/
inductive AgentOperationStatus where
  | operationReceived
  | operationProcessed
  | operationFinished
  deriving DecidableEq, Repr

/-- Embeds `agentOperation`. -/
structure AgentOperation where
  tableID : TableID
  isDelete : Bool
  status : AgentOperationStatus
  deriving DecidableEq, Repr

/-- Embeds the fields of `BaseAgent` that the scheduling protocol claims are
about: the owner record, the flags, the pending-operation deque, and the
in-flight table-operation map (modelled as an association list keyed by
table ID). -/
structure BaseAgent where
  pendingOps : List AgentOperation
  tableOperations : List (TableID × AgentOperation)
  needSyncNow : Bool
  ownerInfo : OwnerInfo
  ownerHasChanged : Bool
  deriving DecidableEq, Repr

/-- Embeds `BaseAgent.updateOwnerInfo`: `none` models the
`logger.Panic("owner IDs do not match")` branch; otherwise returns the
updated agent and the accept/reject boolean. -/
def BaseAgent.updateOwnerInfo (a : BaseAgent) (ownerCaptureID : CaptureID) (ownerRev : Int) :
    Option (BaseAgent × Bool) :=
  if a.ownerInfo.ownerRev < ownerRev then
    some ({ a with
              ownerInfo := { ownerCaptureID := ownerCaptureID, ownerRev := ownerRev }
              ownerHasChanged := true
              pendingOps := [] }, true)
  else if a.ownerInfo.ownerRev > ownerRev then
    some (a, false)
  else if a.ownerInfo.ownerCaptureID ≠ ownerCaptureID then
    none
  else
    some (a, true)

/-- Modelled from the spec: `util.SortTableIDs` (cdc/scheduler/util) is not
under src/; the spec says each payload list is sorted in ascending table-ID
order. -/
def SortTableIDs (ids : List TableID) : List TableID :=
  ids.insertionSort (· ≤ ·)

/-- Embeds the payload computation of `BaseAgent.sendSync`: `adding` and
`removing` are drawn from the in-flight table operations, `running` is
the current tables of the executor (passed in, as `executor.GetAllCurrentTables`
is a collaborator) minus tables with a pending operation; all three are
sorted. Returned as `(running, adding, removing)`. -/
def BaseAgent.syncPayload (a : BaseAgent) (currentTables : List TableID) :
    List TableID × List TableID × List TableID :=
  let adding := (a.tableOperations.filter (fun p => !p.2.isDelete)).map (fun p => p.2.tableID)
  let removing := (a.tableOperations.filter (fun p => p.2.isDelete)).map (fun p => p.2.tableID)
  let running := currentTables.filter (fun tid => (a.tableOperations.lookup tid).isNone)
  (SortTableIDs running, SortTableIDs adding, SortTableIDs removing)

/-! ## Checkpoint engine state (dm/syncer/checkpoint.go)

The Go nested `map[string]map[string]*binlogPoint` is modelled as a nested
association list; `List.lookup` finds the first matching key, and
`setInAssoc` updates the first occurrence (or appends), which agrees with
Go map semantics whenever keys are unique. -/

/-- Association-list update: replace the binding of the first occurrence of
`k`, or append a new binding. -/
def setInAssoc {α : Type} (m : List (String × α)) (k : String) (v : α) : List (String × α) :=
  match m with
  | [] => [(k, v)]
  | (k', v') :: rest => if k' = k then (k, v) :: rest else (k', v') :: setInAssoc rest k v

/-- Embeds the nested checkpoint map `source-schema -> source-table -> checkpoint`. -/
abbrev PointsMap := List (String × List (String × BinlogPoint))

/-- Lookup of a table checkpoint in the nested map. -/
def lookupTable (pts : PointsMap) (schema table : String) : Option BinlogPoint :=
  match pts.lookup schema with
  | none => none
  | some m => m.lookup table

/-- Embeds the Go sequence `mSchema, ok := cp.points[schema]; if !ok make;
mSchema[table] = point`. -/
def setTable (pts : PointsMap) (schema table : String) (bp : BinlogPoint) : PointsMap :=
  match pts.lookup schema with
  | none => setInAssoc pts schema [(table, bp)]
  | some m => setInAssoc pts schema (setInAssoc m table bp)

/-- Wall-clock instants; `Option Time` models the Go `time.Time` with `none`
standing for the zero time (`IsZero`). -/
abbrev Time := Nat

/-- Embeds `SnapshotInfo`. -/
structure SnapshotInfo where
  id : Nat
  globalPos : Location
  deriving DecidableEq, Repr

/-- Embeds `remoteCheckpointSnapshot`. -/
structure RemoteCheckpointSnapshot where
  id : Nat
  globalPoint : Option TablePoint
  globalPointSaveTime : Option Time
  points : List (String × List (String × TablePoint))
  deriving DecidableEq, Repr

/-- Embeds the in-memory state of `RemoteCheckPoint`; `enableGTID` stands
for `cp.cfg.EnableGTID`. Database handles, logging and config fields that
the claims never read are omitted. -/
structure RemoteCheckPoint where
  enableGTID : Bool
  points : PointsMap
  globalPoint : BinlogPoint
  globalPointSaveTime : Option Time
  lastSnapshotCreationTime : Option Time
  safeModeExitPoint : Option Location
  needFlushSafeModeExitPoint : Bool
  snapshots : List RemoteCheckpointSnapshot
  snapshotSeq : Nat
  deriving DecidableEq, Repr

/-- Embeds `NewRemoteCheckPoint` (its in-memory initialisation). -/
def newRemoteCheckPoint (enableGTID : Bool) : RemoteCheckPoint :=
  { enableGTID := enableGTID
    points := []
    globalPoint := newBinlogPoint Location.fresh Location.fresh none none enableGTID
    globalPointSaveTime := none
    lastSnapshotCreationTime := none
    safeModeExitPoint := none
    needFlushSafeModeExitPoint := false
    snapshots := []
    snapshotSeq := 0 }

/-- Embeds `RemoteCheckPoint.SaveGlobalPoint`: a failed `save` is only
logged, leaving the state unchanged. -/
def RemoteCheckPoint.saveGlobalPoint (cp : RemoteCheckPoint) (location : Location) :
    RemoteCheckPoint :=
  match cp.globalPoint.save location none with
  | .ok b => { cp with globalPoint := b }
  | .error _ => cp

/-- Embeds `RemoteCheckPoint.saveTablePoint` (and thus `SaveTablePoint`,
which only adds the lock): `none` models the
`panic("table checkpoint ... less than global checkpoint")` branch; on a
failed `entry.save` the error is only logged. -/
def RemoteCheckPoint.saveTablePoint (cp : RemoteCheckPoint) (schema table : String)
    (location : Location) (ti : Option TableInfo) : Option RemoteCheckPoint :=
  if 0 < CompareLocation cp.globalPoint.savedPoint.location location cp.enableGTID then
    none
  else
    match lookupTable cp.points schema table with
    | none =>
        some { cp with points := (setTable cp.points schema table
                  (newBinlogPoint location Location.fresh ti none cp.enableGTID)) }
    | some point =>
        match point.save location ti with
        | .ok point2 => some { cp with points := setTable cp.points schema table point2 }
        | .error _ => some cp

/-- Embeds `RemoteCheckPoint.SaveSafeModeExitPoint`. -/
def RemoteCheckPoint.saveSafeModeExitPoint (cp : RemoteCheckPoint) (point : Option Location) :
    RemoteCheckPoint :=
  let doSet : Bool :=
    match cp.safeModeExitPoint, point with
    | none, _ => true
    | _, none => true
    | some stored, some p => decide (0 < CompareLocation p stored cp.enableGTID)
  if doSet then
    { cp with safeModeExitPoint := point, needFlushSafeModeExitPoint := true }
  else cp

/-- Embeds `RemoteCheckPoint.IsOlderThanTablePoint`. -/
def RemoteCheckPoint.isOlderThanTablePoint (cp : RemoteCheckPoint) (schema table : String)
    (location : Location) (isDDL : Bool) : Bool :=
  match lookupTable cp.points schema table with
  | none => false
  | some point =>
      let oldLocation := point.MySQLLocation
      if isDDL || !cp.enableGTID then
        decide (CompareLocation location oldLocation cp.enableGTID ≤ 0)
      else
        decide (CompareLocation location oldLocation cp.enableGTID < 0)

/-- Embeds the copy loop of `RemoteCheckPoint.Snapshot`: every out-of-date
saved point of each out-of-date table entry, grouped per schema, dropping schemas with no
out-of-date entry. -/
def snapshotTablePoints (pts : PointsMap) : List (String × List (String × TablePoint)) :=
  (pts.map (fun p =>
    (p.1, p.2.filterMap (fun q =>
      if q.2.outOfDate then some (q.1, q.2.savedPoint) else none)))).filter
    (fun p => !p.2.isEmpty)

/-- Lookup of a table point in the nested map of a snapshot. -/
def lookupTP (pts : List (String × List (String × TablePoint))) (schema table : String) :
    Option TablePoint :=
  match pts.lookup schema with
  | none => none
  | some m => m.lookup table

/-- Embeds `RemoteCheckPoint.Snapshot`; `now` stands for `time.Now()`. -/
def RemoteCheckPoint.snapshot (cp : RemoteCheckPoint) (isSyncFlush : Bool) (now : Time) :
    Option SnapshotInfo × RemoteCheckPoint :=
  let seq := cp.snapshotSeq + 1
  let id := seq
  let tableCheckPoints := snapshotTablePoints cp.points
  let flushGlobalPoint : Bool :=
    cp.globalPoint.outOfDate || cp.globalPointSaveTime.isNone ||
      (isSyncFlush && cp.needFlushSafeModeExitPoint)
  if tableCheckPoints.isEmpty && !flushGlobalPoint then
    (none, { cp with snapshotSeq := seq })
  else
    let globalPoint : TablePoint := cp.globalPoint.savedPoint
    let snap : RemoteCheckpointSnapshot :=
      { id := id
        globalPoint := if flushGlobalPoint then some globalPoint else none
        globalPointSaveTime := if flushGlobalPoint then some now else none
        points := tableCheckPoints }
    (some { id := id, globalPos := globalPoint.location },
     { cp with
         snapshotSeq := seq
         snapshots := cp.snapshots ++ [snap]
         lastSnapshotCreationTime := some now })

/-- The condition under which `Snapshot` includes a copy of the global
entry. -/
def snapshotFlushGlobal (cp : RemoteCheckPoint) (isSyncFlush : Bool) : Bool :=
  cp.globalPoint.outOfDate || cp.globalPointSaveTime.isNone ||
    (isSyncFlush && cp.needFlushSafeModeExitPoint)

/-- The condition under which `Snapshot` returns nil. -/
def snapshotEmptyCond (cp : RemoteCheckPoint) (isSyncFlush : Bool) : Bool :=
  (snapshotTablePoints cp.points).isEmpty && !(snapshotFlushGlobal cp isSyncFlush)

/-- Embeds the per-schema collection loop of `FlushPointsExcept`: skip
excepted tables, look the current entry up (`none` models the nil-pointer
dereference Go would take on a missing entry), and keep the tuple exactly
when the current entry is still out of date w.r.t. the snapshot value. -/
def collectTableTuples (cp : RemoteCheckPoint) (schema : String)
    (excepts : List (String × String)) :
    List (String × TablePoint) → Option (List (String × BinlogPoint × TablePoint))
  | [] => some []
  | (table, tp) :: rest =>
    if excepts.contains (schema, table) then collectTableTuples cp schema excepts rest
    else
      match lookupTable cp.points schema table with
      | none => none
      | some bp =>
          match collectTableTuples cp schema excepts rest with
          | none => none
          | some l =>
              some (if bp.outOfDateBy tp.location then (table, bp, tp) :: l else l)

/-- Embeds the outer collection loop of `FlushPointsExcept` over the
schemas of the snapshot. -/
def collectFlushTuples (cp : RemoteCheckPoint) (excepts : List (String × String)) :
    List (String × List (String × TablePoint)) →
      Option (List (String × String × BinlogPoint × TablePoint))
  | [] => some []
  | (schema, m) :: rest =>
    match collectTableTuples cp schema excepts m, collectFlushTuples cp excepts rest with
    | some l1, some l2 => some (l1.map (fun q => (schema, q)) ++ l2)
    | _, _ => none

/-- Embeds `RemoteCheckPoint.FlushPointsExcept`; `execOK` stands for the
outcome of `dbConn.ExecuteSQL` on the generated batch. `none` models the
fatal `DPanic("snapshot not found")` / nil dereference; otherwise the pair
carries whether the batch execution succeeded together with the resulting
state. The head snapshot is consumed before anything else, matching the Go
slice pop `cp.snapshots = cp.snapshots[1:]`; on success the collected and
global flushed points advance and the needs-flush flag clears. -/
def RemoteCheckPoint.flushPointsExcept (cp : RemoteCheckPoint) (snapshotID : Nat)
    (exceptTables : List (String × String)) (execOK : Bool) :
    Option (Bool × RemoteCheckPoint) :=
  match cp.snapshots with
  | [] => none
  | snapshotCp :: rest =>
    if snapshotCp.id ≠ snapshotID then none
    else
      match collectFlushTuples { cp with snapshots := rest } exceptTables snapshotCp.points with
      | none => none
      | some tuples =>
          if !execOK then some (false, { cp with snapshots := rest })
          else
            match snapshotCp.globalPoint with
            | some gp =>
                some (true, { cp with
                    snapshots := rest
                    globalPoint := cp.globalPoint.flushBy gp
                    globalPointSaveTime := snapshotCp.globalPointSaveTime
                    points := tuples.foldl
                      (fun pts u => setTable pts u.1 u.2.1 (u.2.2.1.flushBy u.2.2.2)) cp.points
                    needFlushSafeModeExitPoint := false })
            | none =>
                some (true, { cp with
                    snapshots := rest
                    points := tuples.foldl
                      (fun pts u => setTable pts u.1 u.2.1 (u.2.2.1.flushBy u.2.2.2)) cp.points
                    needFlushSafeModeExitPoint := false })

/-- First match of a flush tuple by (schema, table), mirroring how the
collected pointers are identified. -/
def findTuple (l : List (String × String × BinlogPoint × TablePoint)) (s t : String) :
    Option (BinlogPoint × TablePoint) :=
  match l with
  | [] => none
  | u :: rest => if u.1 = s ∧ u.2.1 = t then some u.2.2 else findTuple rest s t

/-- Every non-excepted table of a queued snapshot still has a live entry
(Go would otherwise dereference a nil `*binlogPoint`). -/
def flushCovered (cp : RemoteCheckPoint) (excepts : List (String × String))
    (snap : RemoteCheckpointSnapshot) : Prop :=
  ∀ p ∈ snap.points, ∀ q ∈ p.2, excepts.contains (p.1, q.1) = true ∨
    (lookupTable cp.points p.1 q.1).isSome = true

/-- The live saved locations have not fallen behind the queued snapshot
(maintained in reality because saves are monotone after the snapshot was
copied). -/
def flushCoherent (cp : RemoteCheckPoint) (snap : RemoteCheckpointSnapshot) : Prop :=
  (∀ p ∈ snap.points, ∀ q ∈ p.2,
    (lookupTable cp.points p.1 q.1).all (fun bp =>
      decide (0 ≤ CompareLocation bp.savedPoint.location q.2.location bp.enableGTID)) = true) ∧
  (snap.globalPoint.all (fun gp =>
    decide (0 ≤ CompareLocation cp.globalPoint.savedPoint.location gp.location
      cp.globalPoint.enableGTID)) = true)

/-! ### Save-operation sequences (for the monotonicity claim) -/

/-- One in-memory checkpoint save, as issued by the replication stream. -/
inductive SaveOp where
  | saveGlobal (location : Location)
  | saveTable (schema table : String) (location : Location) (ti : Option TableInfo)
  deriving DecidableEq, Repr

/-- Applies one save; `none` propagates the `saveTablePoint` panic. -/
def applySaveOp (cp : RemoteCheckPoint) : SaveOp → Option RemoteCheckPoint
  | .saveGlobal loc => some (cp.saveGlobalPoint loc)
  | .saveTable s t loc ti => cp.saveTablePoint s t loc ti

/-- Decides whether the `entry.save` performed by one operation succeeds
(creating a brand-new table entry performs no `entry.save`). -/
def saveOpOk (cp : RemoteCheckPoint) : SaveOp → Bool
  | .saveGlobal loc =>
      match cp.globalPoint.save loc none with
      | .ok _ => true
      | .error _ => false
  | .saveTable s t loc ti =>
      match lookupTable cp.points s t with
      | none => true
      | some bp =>
          match bp.save loc ti with
          | .ok _ => true
          | .error _ => false

/-- Runs a sequence of saves, collecting each intermediate state. -/
def runSaveOps (cp : RemoteCheckPoint) : List SaveOp → Option (List RemoteCheckPoint)
  | [] => some []
  | op :: ops =>
    match applySaveOp cp op with
    | none => none
    | some cp2 =>
        match runSaveOps cp2 ops with
        | none => none
        | some rest => some (cp2 :: rest)

/-- Every `entry.save` along the run succeeds. -/
def allSavesOk (cp : RemoteCheckPoint) : List SaveOp → Bool
  | [] => true
  | op :: ops =>
    saveOpOk cp op &&
      (match applySaveOp cp op with
       | none => true
       | some cp2 => allSavesOk cp2 ops)

/-- The stored saved location of the global entry. -/
def globalLoc (cp : RemoteCheckPoint) : Location :=
  cp.globalPoint.savedPoint.location

/-- The stored saved location of a table entry, when present. -/
def tableLoc (cp : RemoteCheckPoint) (schema table : String) : Option Location :=
  (lookupTable cp.points schema table).map (fun bp => bp.savedPoint.location)

/-- One step of a non-decreasing location sequence: an absent entry may
appear, a present entry never disappears and never moves backwards under
the order selected by `g`. -/
def locStep (g : Bool) : Option Location → Option Location → Prop
  | none, _ => True
  | some _, none => False
  | some a, some b => 0 ≤ CompareLocation b a g

/-- Runs a sequence of `Snapshot` calls, collecting each returned
`SnapshotInfo`. -/
def snapshotRun (cp : RemoteCheckPoint) :
    List (Bool × Time) → List (Option SnapshotInfo) × RemoteCheckPoint
  | [] => ([], cp)
  | (b, t) :: rest =>
    let r := cp.snapshot b t
    let rr := snapshotRun r.2 rest
    (r.1 :: rr.1, rr.2)

/-- Well-formedness of an engine state, as guaranteed by the constructor and
the Go map semantics: schema keys and per-schema table keys are unique, and
every entry carries the gtid-aware flag of the engine. -/
def RemoteCheckPoint.WF (cp : RemoteCheckPoint) : Prop :=
  cp.points.Pairwise (fun p q => p.1 ≠ q.1) ∧
  (∀ p ∈ cp.points, p.2.Pairwise (fun a b => a.1 ≠ b.1)) ∧
  (∀ p ∈ cp.points, ∀ q ∈ p.2, q.2.enableGTID = cp.enableGTID) ∧
  cp.globalPoint.enableGTID = cp.enableGTID

/-! ## Storage actor (cdc/sorter/leveldb, src/unnamed/part_001) -/

/-- One record of a write batch. -/
inductive BatchOp where
  | put (key value : String)
  | del (key : String)
  deriving DecidableEq, Repr

/-- Size in bytes contributed by a record to the batch representation
(one header byte plus the payload). -/
def BatchOp.reprSize : BatchOp → Nat
  | .put k v => 1 + k.length + v.length
  | .del k => 1 + k.length

/-- Models `db.Batch`: the pending records plus the capacity of the backing
buffer (`cap(wb.Repr())`), which only grows until the batch is replaced. -/
structure Batch where
  ops : List BatchOp
  cap : Nat
  deriving DecidableEq, Repr

/-- Models `len(wb.Repr())`. -/
def Batch.reprLen (b : Batch) : Nat :=
  (b.ops.map BatchOp.reprSize).sum

/-- Models `wb.Put`. -/
def Batch.put (b : Batch) (k v : String) : Batch :=
  let ops := b.ops ++ [.put k v]
  { ops := ops, cap := max b.cap ((ops.map BatchOp.reprSize).sum) }

/-- Models `wb.Delete`. -/
def Batch.deleteKey (b : Batch) (k : String) : Batch :=
  let ops := b.ops ++ [.del k]
  { ops := ops, cap := max b.cap ((ops.map BatchOp.reprSize).sum) }

/-- Models `wb.Reset`: drops the records, keeps the backing capacity. -/
def Batch.reset (b : Batch) : Batch :=
  { b with ops := [] }

/-- Models `db.Batch(cap)`: a fresh batch of the given capacity. -/
def newBatch (cap : Nat) : Batch :=
  { ops := [], cap := cap }

/-- Embeds the state of `DBActor` that the write-batching claims are about;
`committed` is the stream of records durably committed to the db engine so
far, and `compactAccepts` is the `CompactScheduler.maybeCompact` oracle
applied to the current delete count. -/
structure DBActor where
  wb : Batch
  wbSize : Nat
  wbCap : Nat
  deleteCount : Nat
  committed : List BatchOp
  compactAccepts : Nat → Bool

/-- Embeds `DBActor.maybeWrite` (commit errors are fatal to the actor and
are not modelled as a state). -/
def DBActor.maybeWrite (ldb : DBActor) (force : Bool) : DBActor :=
  let bytes := ldb.wb.reprLen
  if ldb.wbSize ≤ bytes ∨ (force = true ∧ bytes ≠ 0) then
    let committed := ldb.committed ++ ldb.wb.ops
    let wb := if ldb.wb.cap ≤ ldb.wbCap then ldb.wb.reset else newBatch ldb.wbCap
    let deleteCount := if ldb.compactAccepts ldb.deleteCount then 0 else ldb.deleteCount
    { ldb with committed := committed, wb := wb, deleteCount := deleteCount }
  else ldb

/-- Embeds the per-event body of `DBActor.Poll`: an empty value turns into a
`Delete` (counting it), a non-empty value into a `Put`, followed by
`maybeWrite(false)`. -/
def DBActor.applyEvent (ldb : DBActor) (k v : String) : DBActor :=
  let ldb1 :=
    if v.length ≠ 0 then { ldb with wb := ldb.wb.put k v }
    else { ldb with wb := ldb.wb.deleteKey k, deleteCount := ldb.deleteCount + 1 }
  ldb1.maybeWrite false

/-- Embeds the event loop of `DBActor.Poll` over one task's events. -/
def DBActor.processEvents (ldb : DBActor) (events : List (String × String)) : DBActor :=
  events.foldl (fun s p => s.applyEvent p.1 p.2) ldb

/-- Embeds the batch-size arithmetic of `NewDBActor`:
`wbSize = blockSize * 16`, `wbCap = wbSize * 2`. -/
def newDBActor (blockSize : Nat) (compactAccepts : Nat → Bool) : DBActor :=
  let wbSize := blockSize * 16
  let wbCap := wbSize * 2
  { wb := newBatch wbCap
    wbSize := wbSize
    wbCap := wbCap
    deleteCount := 0
    committed := []
    compactAccepts := compactAccepts }

/-- The records observable through the actor: everything committed followed
by everything still pending in the batch. `maybeWrite` preserves this
stream; events append to it. -/
def DBActor.stream (ldb : DBActor) : List BatchOp :=
  ldb.committed ++ ldb.wb.ops

/-- The record an event turns into. -/
def eventOp (p : String × String) : BatchOp :=
  if p.2.length ≠ 0 then .put p.1 p.2 else .del p.1

/-! ## Retrying etcd client (pkg/etcd/client.go) -/

/-- Response-and-error pair of an underlying etcd `Delete` RPC. -/
structure RPCResult where
  deleted : Int
  err : Option String
  deriving DecidableEq, Repr

/-- Embeds the `Client` wrapper state relevant to `Delete`: the
per-operation counters (a counter may be absent from the metrics map), the
log of keys passed to the underlying `clientv3` Delete so far, and an
oracle giving the outcome of the n-th underlying call on a key. -/
structure EtcdClient where
  metrics : List (String × Nat)
  calls : List String
  deleteOracle : Nat → String → RPCResult

/-- Increment a counter if it is present in the metrics map, as in
`if metric, ok := c.metrics[EtcdDel]; ok { metric.Inc() }`. -/
def incMetric (metrics : List (String × Nat)) (name : String) : List (String × Nat) :=
  match metrics.lookup name with
  | none => metrics
  | some n => setInAssoc metrics name (n + 1)

/-- Embeds `Client.Delete`: bump the `Del` counter when present, then call
the underlying `clientv3.KV.Delete` exactly once — never through
`retryRPC` — and hand its result back unchanged. -/
def EtcdClient.deleteRPC (c : EtcdClient) (key : String) : RPCResult × EtcdClient :=
  let c1 := { c with metrics := incMetric c.metrics "Del" }
  let res := c1.deleteOracle c1.calls.length key
  (res, { c1 with calls := c1.calls ++ [key] })

/-! ## Concrete states used by the witnesses and counterexamples -/

/-- First example location. -/
def loc1 : Location := { name := "mysql-bin.000001", pos := 4, gtidSet := none }

/-- Second example location, strictly newer than `loc1`. -/
def loc2 : Location := { name := "mysql-bin.000001", pos := 100, gtidSet := none }

/-- Third example location, strictly newer than `loc2`. -/
def loc3 : Location := { name := "mysql-bin.000002", pos := 4, gtidSet := none }

/-- Example schema snapshot. -/
def ti1 : TableInfo := { id := 1 }

/-- Example agent owned by `capture-a` at revision 7 with one pending op. -/
def agentA : BaseAgent :=
  { pendingOps := [{ tableID := 9, isDelete := false, status := .operationReceived }]
    tableOperations := []
    needSyncNow := false
    ownerInfo := { ownerCaptureID := "capture-a", ownerRev := 7 }
    ownerHasChanged := false }

/-- Example agent whose only in-flight operation is an add that has already
reached the Finished state. -/
def agentFinishedAdd : BaseAgent :=
  { pendingOps := []
    tableOperations := [(5, { tableID := 5, isDelete := false, status := .operationFinished })]
    needSyncNow := true
    ownerInfo := { ownerCaptureID := "capture-a", ownerRev := 1 }
    ownerHasChanged := false }

/-- Example agent matching the sync-order scenario of the spec: a pending add for
table 5 and a pending remove for table 1. -/
def agentScenario : BaseAgent :=
  { pendingOps := []
    tableOperations := [(5, { tableID := 5, isDelete := false, status := .operationReceived }),
                        (1, { tableID := 1, isDelete := true, status := .operationReceived })]
    needSyncNow := true
    ownerInfo := { ownerCaptureID := "capture-a", ownerRev := 1 }
    ownerHasChanged := false }

/-- Freshly constructed checkpoint engine (position-only order). -/
def cpFresh : RemoteCheckPoint := newRemoteCheckPoint false

/-- Example table entry with `saved = loc2`, `flushed = loc1`. -/
def bpTable : BinlogPoint := newBinlogPoint loc2 loc1 (some ti1) none false

/-- Example queued snapshot with id 1, covering table `db.tbl` and the
global point. -/
def snapOne : RemoteCheckpointSnapshot :=
  { id := 1
    globalPoint := some { location := loc2, ti := none }
    globalPointSaveTime := some 5
    points := [("db", [("tbl", { location := loc2, ti := some ti1 })])] }

/-- Example engine state with one out-of-date table entry and `snapOne`
waiting in the flush queue. -/
def cpQueued : RemoteCheckPoint :=
  { enableGTID := false
    points := [("db", [("tbl", bpTable)])]
    globalPoint := newBinlogPoint loc2 loc1 none none false
    globalPointSaveTime := none
    lastSnapshotCreationTime := some 5
    safeModeExitPoint := none
    needFlushSafeModeExitPoint := false
    snapshots := [snapOne]
    snapshotSeq := 1 }

/-- Example engine state with an out-of-date table entry and an empty
snapshot queue. -/
def cpTabled : RemoteCheckPoint :=
  { cpQueued with snapshots := [], snapshotSeq := 0 }

/-- Example engine state with a stored safe-mode exit point. -/
def cpSafe : RemoteCheckPoint :=
  { cpFresh with safeModeExitPoint := some loc2 }

/-- Example save sequence: first table save (creates the entry), a global
save, then a strictly newer table save. -/
def saveOpsW : List SaveOp :=
  [.saveTable "db" "tbl" loc1 (some ti1), .saveGlobal loc1, .saveTable "db" "tbl" loc2 none]

/-- Example storage actor with block size 1 (`wbSize = 16`, `wbCap = 32`)
whose compaction scheduler never accepts. -/
def dbActorW : DBActor := newDBActor 1 (fun _ => false)

/-- Example retrying-client state: the `Del` counter sits at 3 and every
underlying call reports a retryable timeout. -/
def etcdW : EtcdClient :=
  { metrics := [("Del", 3), ("Put", 0)]
    calls := []
    deleteOracle := fun _ _ => { deleted := 0, err := some "etcdserver: request timed out" } }

/-! ## Association-list lemmas -/

theorem lookup_cons {α : Type} (k k' : String) (v : α) (rest : List (String × α)) :
    List.lookup k ((k', v) :: rest) = if k = k' then some v else List.lookup k rest := by
  by_cases h : k = k'
  · subst h; simp [List.lookup]
  · simp [List.lookup, beq_false_of_ne h, h]

theorem lookup_mem {α : Type} {k : String} {v : α} :
    ∀ {m : List (String × α)}, m.lookup k = some v → (k, v) ∈ m := by
  intro m
  induction m with
  | nil => intro h; simp [List.lookup] at h
  | cons p rest ih =>
    intro h
    rw [show p = (p.1, p.2) from rfl, lookup_cons] at h
    by_cases hk : k = p.1
    · rw [if_pos hk] at h
      subst hk
      simp at h
      rw [← h]
      exact List.mem_cons_self _ _
    · rw [if_neg hk] at h
      exact List.mem_cons_of_mem _ (ih h)

theorem lookup_setInAssoc_self {α : Type} (k : String) (v : α) :
    ∀ (m : List (String × α)), (setInAssoc m k v).lookup k = some v := by
  intro m
  induction m with
  | nil => simp [setInAssoc, lookup_cons]
  | cons p rest ih =>
    rw [show p = (p.1, p.2) from rfl, setInAssoc]
    by_cases h : p.1 = k
    · rw [if_pos h, lookup_cons, if_pos rfl]
    · rw [if_neg h, lookup_cons, if_neg (fun hh => h hh.symm)]
      exact ih

theorem lookup_setInAssoc_ne {α : Type} (k k' : String) (v : α) (hne : k' ≠ k) :
    ∀ (m : List (String × α)), (setInAssoc m k v).lookup k' = m.lookup k' := by
  intro m
  induction m with
  | nil => simp [setInAssoc, List.lookup, beq_false_of_ne hne]
  | cons p rest ih =>
    rw [show p = (p.1, p.2) from rfl, setInAssoc]
    by_cases h : p.1 = k
    · rw [if_pos h, lookup_cons, if_neg hne, lookup_cons, if_neg]
      rw [h]
      exact hne
    · rw [if_neg h, lookup_cons, lookup_cons]
      by_cases h2 : k' = p.1
      · rw [if_pos h2, if_pos h2]
      · rw [if_neg h2, if_neg h2]
        exact ih

theorem mem_setInAssoc {α : Type} {p : String × α} {k : String} {v : α} :
    ∀ {m : List (String × α)}, p ∈ setInAssoc m k v → p ∈ m ∨ p = (k, v) := by
  intro m
  induction m with
  | nil => intro h; simp [setInAssoc] at h; right; exact h
  | cons q rest ih =>
    intro h
    rw [show q = (q.1, q.2) from rfl, setInAssoc] at h
    by_cases hq : q.1 = k
    · rw [if_pos hq] at h
      rcases List.mem_cons.mp h with h | h
      · right; exact h
      · left; exact List.mem_cons_of_mem _ h
    · rw [if_neg hq] at h
      rcases List.mem_cons.mp h with h | h
      · left; rw [h]; exact List.mem_cons_self _ _
      · rcases ih h with h | h
        · left; exact List.mem_cons_of_mem _ h
        · right; exact h

theorem keys_setInAssoc {α : Type} {k' k : String} {v : α} :
    ∀ {m : List (String × α)}, (∀ p ∈ setInAssoc m k v, p.1 = k' → (∃ q ∈ m, q.1 = k') ∨ k = k') := by
  intro m p hp hk
  rcases mem_setInAssoc hp with h | h
  · exact Or.inl ⟨p, h, hk⟩
  · right; rw [h] at hk; exact hk

theorem pairwise_setInAssoc {α : Type} (k : String) (v : α) :
    ∀ {m : List (String × α)}, m.Pairwise (fun a b => a.1 ≠ b.1) →
      (setInAssoc m k v).Pairwise (fun a b => a.1 ≠ b.1) := by
  intro m
  induction m with
  | nil => intro _; simp [setInAssoc]
  | cons q rest ih =>
    intro h
    rw [List.pairwise_cons] at h
    rw [show q = (q.1, q.2) from rfl, setInAssoc]
    by_cases hq : q.1 = k
    · rw [if_pos hq]
      rw [List.pairwise_cons]
      refine ⟨?_, h.2⟩
      intro a ha
      have hv := h.1 a ha
      rw [hq] at hv
      exact hv
    · rw [if_neg hq]
      rw [List.pairwise_cons]
      refine ⟨?_, ih h.2⟩
      intro a ha
      rcases mem_setInAssoc ha with hm | he
      · exact h.1 a hm
      · rw [he]
        exact fun hh => hq hh

/-! ## Comparator lemmas -/

theorem compareCharList_self : ∀ l : List Char, compareCharList l l = 0
  | [] => rfl
  | a :: as => by
    unfold compareCharList
    rw [if_neg (lt_irrefl _), if_neg (lt_irrefl _)]
    exact compareCharList_self as

theorem compareCharList_neg : ∀ a b : List Char, compareCharList a b = -compareCharList b a
  | [], [] => rfl
  | [], _ :: _ => rfl
  | _ :: _, [] => rfl
  | a :: as, b :: bs => by
    unfold compareCharList
    rcases Nat.lt_trichotomy a.toNat b.toNat with h | h | h
    · rw [if_pos h, if_neg (Nat.lt_asymm h), if_pos h]
    · rw [h, if_neg (lt_irrefl _), if_neg (lt_irrefl _), if_neg (lt_irrefl _),
        if_neg (lt_irrefl _)]
      exact compareCharList_neg as bs
    · rw [if_neg (Nat.lt_asymm h), if_pos h, if_pos h]
      rfl

theorem compareStrings_neg (a b : String) : compareStrings a b = -compareStrings b a :=
  compareCharList_neg a.data b.data

theorem compareGTIDSets_neg (a b : Option String) :
    compareGTIDSets a b = -compareGTIDSets b a := by
  cases a <;> cases b
  · rfl
  · rfl
  · rfl
  · exact compareStrings_neg _ _

theorem compareNat_neg (x y : Nat) : compareNat x y = -compareNat y x := by
  unfold compareNat
  rcases Nat.lt_trichotomy x y with h | h | h
  · rw [if_pos h, if_neg (Nat.lt_asymm h), if_pos h]
  · rw [h, if_neg (lt_irrefl _), if_neg (lt_irrefl _)]
    decide
  · rw [if_neg (Nat.lt_asymm h), if_pos h, if_pos h]
    decide

theorem thenCompare_negneg (c n : Int) : thenCompare (-c) (-n) = -thenCompare c n := by
  by_cases h : c = 0 <;> simp [thenCompare, h, neg_eq_zero]

theorem CompareLocation_neg (a b : Location) (g : Bool) :
    CompareLocation a b g = -CompareLocation b a g := by
  unfold CompareLocation
  have hg : (if g = true then compareGTIDSets a.gtidSet b.gtidSet else 0) =
      -(if g = true then compareGTIDSets b.gtidSet a.gtidSet else 0) := by
    cases g
    · simp
    · simpa using compareGTIDSets_neg a.gtidSet b.gtidSet
  rw [compareStrings_neg a.name b.name, compareNat_neg a.pos b.pos, hg,
    thenCompare_negneg, thenCompare_negneg]

/-! ## Claim C1: updateOwnerInfo -/

/-- Claim C1: `updateOwnerInfo(captureId, rev)`\: a strictly newer rev
replaces the stored owner by `(captureId, rev)`, sets the owner-changed
flag, empties the pending-operation queue, and accepts; a strictly older
rev is rejected with the state unchanged; an equal rev with the same
capture ID accepts without changing state; an equal rev with a different
capture ID fails loudly; and immediately after an accept of a strictly
newer rev the pending-operation queue is empty. -/
theorem claim_C1 (a : BaseAgent) (cid : CaptureID) (rev : Int) :
    (a.ownerInfo.ownerRev < rev →
      a.updateOwnerInfo cid rev =
        some ({ a with
                  ownerInfo := { ownerCaptureID := cid, ownerRev := rev }
                  ownerHasChanged := true
                  pendingOps := [] }, true)) ∧
    (rev < a.ownerInfo.ownerRev → a.updateOwnerInfo cid rev = some (a, false)) ∧
    (a.ownerInfo.ownerRev = rev ∧ a.ownerInfo.ownerCaptureID = cid →
      a.updateOwnerInfo cid rev = some (a, true)) ∧
    (a.ownerInfo.ownerRev = rev ∧ a.ownerInfo.ownerCaptureID ≠ cid →
      a.updateOwnerInfo cid rev = none) ∧
    (∀ a2 ok, a.updateOwnerInfo cid rev = some (a2, ok) → ok = true →
      a.ownerInfo.ownerRev < rev → a2.pendingOps = []) := by
  unfold BaseAgent.updateOwnerInfo
  refine ⟨?_, ?_, ?_, ?_, ?_⟩
  · intro h
    rw [if_pos h]
  · intro h
    rw [if_neg (not_lt.mpr (le_of_lt h)), if_pos h]
  · rintro ⟨h1, h2⟩
    rw [if_neg (by omega), if_neg (by omega), if_neg (by simp [h2])]
  · rintro ⟨h1, h2⟩
    rw [if_neg (by omega), if_neg (by omega), if_pos h2]
  · intro a2 ok h hok hlt
    rw [if_pos hlt] at h
    simp only [Option.some.injEq, Prod.mk.injEq] at h
    rw [← h.1]

/-- Witness for C1 at a concrete agent: newer-rev accept empties the queue,
older-rev reject, equal-rev same-capture accept, equal-rev different-capture
fatal. -/
theorem claim_C1_witness :
    agentA.updateOwnerInfo "capture-b" 8 =
      some ({ agentA with
                ownerInfo := { ownerCaptureID := "capture-b", ownerRev := 8 }
                ownerHasChanged := true
                pendingOps := [] }, true) ∧
    agentA.updateOwnerInfo "capture-b" 6 = some (agentA, false) ∧
    agentA.updateOwnerInfo "capture-a" 7 = some (agentA, true) ∧
    agentA.updateOwnerInfo "capture-b" 7 = none :=
  ⟨(claim_C1 agentA "capture-b" 8).1 (by decide),
   (claim_C1 agentA "capture-b" 6).2.1 (by decide),
   (claim_C1 agentA "capture-a" 7).2.2.1 ⟨by decide, by decide⟩,
   (claim_C1 agentA "capture-b" 7).2.2.2.1 ⟨by decide, by decide⟩⟩

/-! ## Claim C10: IsOlderThanTablePoint on missing entries -/

/-- Claim C10: for a table with no checkpoint entry in the in-memory map,
`IsOlderThanTablePoint` returns false for every location and every value of
`isDDL`. -/
theorem claim_C10 (cp : RemoteCheckPoint) (schema table : String)
    (h : lookupTable cp.points schema table = none) :
    ∀ (location : Location) (isDDL : Bool),
      cp.isOlderThanTablePoint schema table location isDDL = false := by
  intro location isDDL
  unfold RemoteCheckPoint.isOlderThanTablePoint
  rw [h]

/-- Witness for C10: the fresh engine has no entry for `db.tbl`, and the
check answers false there. -/
theorem claim_C10_witness :
    lookupTable cpFresh.points "db" "tbl" = none ∧
    cpFresh.isOlderThanTablePoint "db" "tbl" loc1 true = false ∧
    cpFresh.isOlderThanTablePoint "db" "tbl" loc2 false = false :=
  ⟨by decide, claim_C10 cpFresh "db" "tbl" (by decide) loc1 true,
   claim_C10 cpFresh "db" "tbl" (by decide) loc2 false⟩

/-! ## Claim C7: SaveSafeModeExitPoint -/

/-- Claim C7 counterexample: with a stored safe-mode exit point, calling
`SaveSafeModeExitPoint` with a nil pointer overwrites the stored pointer
(and raises the flag) although no strictly newer location was supplied, so
the pointer changes without any "strictly newer" comparison holding. -/
theorem claim_C7_counterexample :
    cpSafe.safeModeExitPoint = some loc2 ∧
    (cpSafe.saveSafeModeExitPoint none).safeModeExitPoint = none ∧
    (cpSafe.saveSafeModeExitPoint none).needFlushSafeModeExitPoint = true := by
  refine ⟨rfl, ?_, ?_⟩ <;> decide

/-- Claim C7 (amended): `SaveSafeModeExitPoint(loc)` replaces the stored
pointer exactly when the stored pointer is nil, or the argument is nil, or
the new location is strictly newer than the stored one under the active
order; whenever it replaces the pointer it also raises the needs-flush
flag; otherwise the state is unchanged. -/
theorem claim_C7_amended (cp : RemoteCheckPoint) (point : Option Location) :
    ((cp.safeModeExitPoint = none ∨ point = none ∨
        (∃ p q, point = some p ∧ cp.safeModeExitPoint = some q ∧
          0 < CompareLocation p q cp.enableGTID)) →
      cp.saveSafeModeExitPoint point =
        { cp with safeModeExitPoint := point, needFlushSafeModeExitPoint := true }) ∧
    (¬(cp.safeModeExitPoint = none ∨ point = none ∨
        (∃ p q, point = some p ∧ cp.safeModeExitPoint = some q ∧
          0 < CompareLocation p q cp.enableGTID)) →
      cp.saveSafeModeExitPoint point = cp) := by
  unfold RemoteCheckPoint.saveSafeModeExitPoint
  constructor
  · intro h
    rcases hstored : cp.safeModeExitPoint with _ | q
    · simp [hstored]
    · rcases hpoint : point with _ | p
      · simp [hstored, hpoint]
      · rcases h with h | h | ⟨p', q', hp', hq', hcmp⟩
        · exact absurd hstored (by simp [h])
        · exact absurd hpoint (by simp [h])
        · rw [hpoint] at hp'
          rw [hstored] at hq'
          cases Option.some.inj hp'
          cases Option.some.inj hq'
          simp [hstored, hpoint, hcmp]
  · intro h
    push_neg at h
    obtain ⟨h1, h2, h3⟩ := h
    rcases hstored : cp.safeModeExitPoint with _ | q
    · exact absurd hstored h1
    · rcases hpoint : point with _ | p
      · exact absurd hpoint h2
      · have hcmp : ¬(0 < CompareLocation p q cp.enableGTID) := by
          intro hc
          exact absurd hc (by simpa using h3 p q hpoint hstored)
        simp [hstored, hpoint, hcmp]

/-- Witness for C7 (amended) at concrete inputs: a strictly newer location
replaces the pointer and raises the flag; an equal location leaves the
state unchanged. -/
theorem claim_C7_amended_witness :
    cpSafe.saveSafeModeExitPoint (some loc3) =
      { cpSafe with safeModeExitPoint := some loc3, needFlushSafeModeExitPoint := true } ∧
    cpSafe.saveSafeModeExitPoint (some loc2) = cpSafe :=
  ⟨(claim_C7_amended cpSafe (some loc3)).1
      (Or.inr (Or.inr ⟨loc3, loc2, rfl, by decide, by decide⟩)),
   (claim_C7_amended cpSafe (some loc2)).2 (by
      rintro (h | h | ⟨p, q, hp, hq, hcmp⟩)
      · exact absurd h (by decide)
      · exact absurd h (by decide)
      · cases Option.some.inj hp
        have hq2 : cpSafe.safeModeExitPoint = some loc2 := by decide
        rw [hq2] at hq
        cases Option.some.inj hq
        exact absurd hcmp (by decide))⟩

/-! ## Claim C9: the retrying client never retries Delete -/

/-- Claim C9: `Client.Delete` invokes the underlying coordination-service
Delete exactly once — appending exactly one call with the unchanged key,
whatever the outcome, so it is never retried — returns the underlying
response and error unchanged, and increments the per-operation counter when
it is registered in the metrics map. -/
theorem claim_C9 (c : EtcdClient) (key : String) :
    (c.deleteRPC key).1 = c.deleteOracle c.calls.length key ∧
    (c.deleteRPC key).2.calls = c.calls ++ [key] ∧
    (c.deleteRPC key).2.deleteOracle = c.deleteOracle ∧
    (∀ n, c.metrics.lookup "Del" = some n →
      (c.deleteRPC key).2.metrics.lookup "Del" = some (n + 1)) ∧
    (c.metrics.lookup "Del" = none → (c.deleteRPC key).2.metrics = c.metrics) := by
  refine ⟨rfl, rfl, rfl, ?_, ?_⟩
  · intro n hn
    show (incMetric c.metrics "Del").lookup "Del" = some (n + 1)
    unfold incMetric
    rw [hn]
    exact lookup_setInAssoc_self _ _ _
  · intro hn
    show incMetric c.metrics "Del" = c.metrics
    unfold incMetric
    rw [hn]

/-- Witness for C9 at a concrete client whose underlying call always fails
with a retryable error: the result is handed back unchanged, exactly one
underlying call is recorded, and the registered counter moves from 3 to
4. -/
theorem claim_C9_witness :
    (etcdW.deleteRPC "key-a").1 = { deleted := 0, err := some "etcdserver: request timed out" } ∧
    (etcdW.deleteRPC "key-a").2.calls = ["key-a"] ∧
    (etcdW.deleteRPC "key-a").2.metrics.lookup "Del" = some 4 :=
  ⟨(claim_C9 etcdW "key-a").1, (claim_C9 etcdW "key-a").2.1,
   (claim_C9 etcdW "key-a").2.2.2.1 3 (by decide)⟩

/-! ## Claim C6: the agent sync payload -/

/-- Claim C6 counterexample: with the only in-flight operation an add for
table 5 that has already reached the Finished state, the computed payload
still lists 5 in `adding`, so `adding` is not restricted to pending add
operations in state Received or Processed as the claim states. -/
theorem claim_C6_counterexample :
    agentFinishedAdd.syncPayload [] = ([], [5], []) ∧
    (∀ p ∈ agentFinishedAdd.tableOperations,
      p.2.status ≠ AgentOperationStatus.operationReceived ∧
      p.2.status ≠ AgentOperationStatus.operationProcessed) := by
  constructor
  · decide
  · decide

/-- Claim C6 (amended): `adding` is exactly the table IDs of in-flight add
(non-delete) operations of any status, `removing` exactly the IDs of
in-flight remove operations, `running` exactly the current
tables that have no in-flight operation; each list is sorted in ascending
ID order of the executor; and the example of the spec — running [3, 1, 2], a pending
add for 5 and a pending remove for 1 — yields running=[2, 3], adding=[5],
removing=[1]. -/
theorem claim_C6_amended (a : BaseAgent) (currentTables : List TableID) :
    ((a.syncPayload currentTables).1.Sorted (· ≤ ·) ∧
      (a.syncPayload currentTables).2.1.Sorted (· ≤ ·) ∧
      (a.syncPayload currentTables).2.2.Sorted (· ≤ ·)) ∧
    (∀ x, x ∈ (a.syncPayload currentTables).2.1 ↔
      ∃ p ∈ a.tableOperations, p.2.isDelete = false ∧ p.2.tableID = x) ∧
    (∀ x, x ∈ (a.syncPayload currentTables).2.2 ↔
      ∃ p ∈ a.tableOperations, p.2.isDelete = true ∧ p.2.tableID = x) ∧
    (∀ x, x ∈ (a.syncPayload currentTables).1 ↔
      x ∈ currentTables ∧ a.tableOperations.lookup x = none) ∧
    agentScenario.syncPayload [3, 1, 2] = ([2, 3], [5], [1]) := by
  refine ⟨⟨List.sorted_insertionSort _ _, List.sorted_insertionSort _ _,
      List.sorted_insertionSort _ _⟩, ?_, ?_, ?_, by decide⟩
  · intro x
    unfold BaseAgent.syncPayload SortTableIDs
    simp [List.mem_insertionSort, List.mem_map, List.mem_filter, and_assoc]
  · intro x
    unfold BaseAgent.syncPayload SortTableIDs
    simp [List.mem_insertionSort, List.mem_map, List.mem_filter, and_assoc]
  · intro x
    unfold BaseAgent.syncPayload SortTableIDs
    simp [List.mem_insertionSort, List.mem_filter, Option.isNone_iff_eq_none]

/-- Witness for C6 (amended): the spec scenario instantiated, and table 5
recognised as an element of `adding` through the characterisation. -/
theorem claim_C6_amended_witness :
    agentScenario.syncPayload [3, 1, 2] = ([2, 3], [5], [1]) ∧
    (5 : Int) ∈ (agentScenario.syncPayload [3, 1, 2]).2.1 :=
  ⟨(claim_C6_amended agentScenario [3, 1, 2]).2.2.2.2,
   ((claim_C6_amended agentScenario [3, 1, 2]).2.1 5).mpr
     ⟨(5, { tableID := 5, isDelete := false, status := .operationReceived }),
       by decide, rfl, rfl⟩⟩

/-! ## setTable and self-comparison lemmas -/

theorem compareGTIDSets_self (a : Option String) : compareGTIDSets a a = 0 := by
  cases a
  · rfl
  · exact compareCharList_self _

theorem CompareLocation_self (a : Location) (g : Bool) : CompareLocation a a g = 0 := by
  unfold CompareLocation thenCompare compareNat
  rw [show compareStrings a.name a.name = 0 from compareCharList_self _]
  simp [compareGTIDSets_self]

theorem locStep_refl (g : Bool) (x : Option Location) : locStep g x x := by
  cases x
  · trivial
  · show 0 ≤ CompareLocation _ _ g
    rw [CompareLocation_self]

theorem lookupTable_setTable_self (pts : PointsMap) (s t : String) (bp : BinlogPoint) :
    lookupTable (setTable pts s t bp) s t = some bp := by
  unfold setTable lookupTable
  cases h : pts.lookup s
  · rw [lookup_setInAssoc_self]
    show List.lookup t [(t, bp)] = some bp
    rw [lookup_cons, if_pos rfl]
  · rw [lookup_setInAssoc_self]
    show List.lookup t (setInAssoc _ t bp) = some bp
    exact lookup_setInAssoc_self _ _ _

theorem lookupTable_setTable_ne (pts : PointsMap) (s t s' t' : String) (bp : BinlogPoint)
    (h : s' ≠ s ∨ t' ≠ t) :
    lookupTable (setTable pts s t bp) s' t' = lookupTable pts s' t' := by
  unfold setTable lookupTable
  by_cases hs : s' = s
  · subst hs
    have ht : t' ≠ t := h.resolve_left (fun hh => hh rfl)
    cases hlk : pts.lookup s'
    · rw [lookup_setInAssoc_self]
      show List.lookup t' [(t, bp)] = none
      rw [lookup_cons, if_neg ht]
      rfl
    · rw [lookup_setInAssoc_self]
      show List.lookup t' (setInAssoc _ t bp) = _
      exact lookup_setInAssoc_ne _ _ _ ht _
  · cases hlk : pts.lookup s
    · rw [lookup_setInAssoc_ne _ _ _ hs]
    · rw [lookup_setInAssoc_ne _ _ _ hs]

theorem pointsWF_setTable {g : Bool} (pts : PointsMap) (s t : String) (bp : BinlogPoint)
    (h1 : pts.Pairwise (fun p q => p.1 ≠ q.1))
    (h2 : ∀ p ∈ pts, p.2.Pairwise (fun a b => a.1 ≠ b.1))
    (h3 : ∀ p ∈ pts, ∀ q ∈ p.2, q.2.enableGTID = g)
    (hbp : bp.enableGTID = g) :
    (setTable pts s t bp).Pairwise (fun p q => p.1 ≠ q.1) ∧
    (∀ p ∈ setTable pts s t bp, p.2.Pairwise (fun a b => a.1 ≠ b.1)) ∧
    (∀ p ∈ setTable pts s t bp, ∀ q ∈ p.2, q.2.enableGTID = g) := by
  unfold setTable
  cases hlk : pts.lookup s
  · refine ⟨pairwise_setInAssoc _ _ h1, ?_, ?_⟩
    · intro p hp
      rcases mem_setInAssoc hp with hm | he
      · exact h2 p hm
      · rw [he]; simp
    · intro p hp q hq
      rcases mem_setInAssoc hp with hm | he
      · exact h3 p hm q hq
      · rw [he] at hq
        simp at hq
        rw [hq]
        exact hbp
  · rename_i m
    have hmem := lookup_mem hlk
    refine ⟨pairwise_setInAssoc _ _ h1, ?_, ?_⟩
    · intro p hp
      rcases mem_setInAssoc hp with hm | he
      · exact h2 p hm
      · rw [he]
        exact pairwise_setInAssoc _ _ (h2 _ hmem)
    · intro p hp q hq
      rcases mem_setInAssoc hp with hm | he
      · exact h3 p hm q hq
      · rw [he] at hq
        rcases mem_setInAssoc hq with hm2 | he2
        · exact h3 _ hmem q hm2
        · rw [he2]
          exact hbp

/-! ## save lemmas -/

theorem save_error_iff (b : BinlogPoint) (loc : Location) (ti : Option TableInfo) :
    b.save loc ti = .error .saveInvalidPos ↔
      CompareLocation loc b.savedPoint.location b.enableGTID < 0 := by
  unfold BinlogPoint.save
  by_cases h : CompareLocation loc b.savedPoint.location b.enableGTID < 0
  · simp [h]
  · simp [h]

theorem save_ok_of_le (b : BinlogPoint) (loc : Location) (ti : Option TableInfo)
    (h : 0 ≤ CompareLocation loc b.savedPoint.location b.enableGTID) :
    b.save loc ti = .ok { b with savedPoint := { location := loc, ti := ti } } := by
  unfold BinlogPoint.save
  rw [if_neg (not_lt.mpr h)]

theorem save_ok_inv {b b2 : BinlogPoint} {loc : Location} {ti : Option TableInfo}
    (h : b.save loc ti = .ok b2) :
    0 ≤ CompareLocation loc b.savedPoint.location b.enableGTID ∧
      b2 = { b with savedPoint := { location := loc, ti := ti } } := by
  unfold BinlogPoint.save at h
  by_cases hc : CompareLocation loc b.savedPoint.location b.enableGTID < 0
  · rw [if_pos hc] at h
    exact absurd h (by simp)
  · rw [if_neg hc] at h
    exact ⟨not_lt.mp hc, (Except.ok.inj h).symm⟩

theorem saveOpOk_global {cp : RemoteCheckPoint} {loc : Location}
    (h : saveOpOk cp (.saveGlobal loc) = true) :
    ∃ b2, cp.globalPoint.save loc none = .ok b2 := by
  simp only [saveOpOk] at h
  cases hs : cp.globalPoint.save loc none
  · rw [hs] at h
    simp at h
  · exact ⟨_, rfl⟩

/-- One successful save step preserves well-formedness, preserves the
configured order flag, and moves no stored location backwards. -/
theorem saveStep_mono {cp cp2 : RemoteCheckPoint} {op : SaveOp}
    (hWF : cp.WF) (happ : applySaveOp cp op = some cp2) (hok : saveOpOk cp op = true) :
    cp2.WF ∧ cp2.enableGTID = cp.enableGTID ∧
    0 ≤ CompareLocation (globalLoc cp2) (globalLoc cp) cp.enableGTID ∧
    ∀ s t, locStep cp.enableGTID (tableLoc cp s t) (tableLoc cp2 s t) := by
  obtain ⟨hP1, hP2, hP3, hG⟩ := hWF
  cases op with
  | saveGlobal loc =>
    obtain ⟨b2, hs⟩ := saveOpOk_global hok
    obtain ⟨hle, hb2⟩ := save_ok_inv hs
    have hcp2 : cp2 = { cp with globalPoint := b2 } := by
      simp only [applySaveOp, RemoteCheckPoint.saveGlobalPoint] at happ
      rw [hs] at happ
      exact (Option.some.inj happ).symm
    subst hcp2
    refine ⟨⟨hP1, hP2, hP3, ?_⟩, rfl, ?_, ?_⟩
    · rw [hb2]
      exact hG
    · show 0 ≤ CompareLocation b2.savedPoint.location (globalLoc cp) cp.enableGTID
      rw [hb2]
      rw [hG] at hle
      exact hle
    · intro s t
      exact locStep_refl _ _
  | saveTable s0 t0 loc ti =>
    simp only [applySaveOp, RemoteCheckPoint.saveTablePoint] at happ
    by_cases hg : 0 < CompareLocation cp.globalPoint.savedPoint.location loc cp.enableGTID
    · rw [if_pos hg] at happ
      exact absurd happ (by simp)
    · rw [if_neg hg] at happ
      have hok2 : (match lookupTable cp.points s0 t0 with
          | none => true
          | some bp2 =>
            match bp2.save loc ti with
            | Except.ok _ => true
            | Except.error _ => false) = true := hok
      cases hlk : lookupTable cp.points s0 t0
      · rw [hlk] at happ
        have hcp2 : cp2 = { cp with points := (setTable cp.points s0 t0
            (newBinlogPoint loc Location.fresh ti none cp.enableGTID)) } :=
          (Option.some.inj happ).symm
        subst hcp2
        have hw := pointsWF_setTable cp.points s0 t0
          (newBinlogPoint loc Location.fresh ti none cp.enableGTID) hP1 hP2 hP3 rfl
        refine ⟨⟨hw.1, hw.2.1, hw.2.2, hG⟩, rfl, ?_, ?_⟩
        · show 0 ≤ CompareLocation (globalLoc cp) (globalLoc cp) cp.enableGTID
          rw [CompareLocation_self]
        · intro s t
          by_cases hst : s = s0 ∧ t = t0
          · obtain ⟨hs, ht⟩ := hst
            subst hs; subst ht
            show locStep cp.enableGTID (tableLoc cp s t) _
            unfold tableLoc
            rw [hlk]
            trivial
          · have hne : s ≠ s0 ∨ t ≠ t0 := by
              by_cases h1 : s = s0
              · exact Or.inr (fun h2 => hst ⟨h1, h2⟩)
              · exact Or.inl h1
            show locStep cp.enableGTID (tableLoc cp s t) _
            unfold tableLoc
            rw [show lookupTable (setTable cp.points s0 t0
                (newBinlogPoint loc Location.fresh ti none cp.enableGTID)) s t =
                lookupTable cp.points s t from lookupTable_setTable_ne _ _ _ _ _ _ hne]
            exact locStep_refl _ _
      · rename_i bp
        rw [hlk] at happ
        rw [hlk] at hok2
        have happ3 : (match bp.save loc ti with
            | Except.ok point2 => some { cp with points := setTable cp.points s0 t0 point2 }
            | Except.error _ => some cp) = some cp2 := happ
        have hok3 : (match bp.save loc ti with
            | Except.ok _ => true
            | Except.error _ => false) = true := hok2
        cases hs : bp.save loc ti with
        | error e =>
          rw [hs] at hok3
          simp at hok3
        | ok bp2 =>
          rw [hs] at happ3
          obtain ⟨hle, hb2⟩ := save_ok_inv hs
          have hbpflag : bp.enableGTID = cp.enableGTID := by
            unfold lookupTable at hlk
            cases hsl : cp.points.lookup s0 with
            | none => rw [hsl] at hlk; simp at hlk
            | some m =>
              rw [hsl] at hlk
              exact hP3 _ (lookup_mem hsl) _ (lookup_mem hlk)
          have hcp2 : cp2 = { cp with points := setTable cp.points s0 t0 bp2 } :=
            (Option.some.inj happ3).symm
          subst hcp2
          have hw := pointsWF_setTable cp.points s0 t0 bp2 hP1 hP2 hP3
            (by rw [hb2]; exact hbpflag)
          refine ⟨⟨hw.1, hw.2.1, hw.2.2, hG⟩, rfl, ?_, ?_⟩
          · show 0 ≤ CompareLocation (globalLoc cp) (globalLoc cp) cp.enableGTID
            rw [CompareLocation_self]
          · intro s t
            by_cases hst : s = s0 ∧ t = t0
            · obtain ⟨h1, h2⟩ := hst
              subst h1; subst h2
              show locStep cp.enableGTID (tableLoc cp s t) (tableLoc _ s t)
              unfold tableLoc
              rw [hlk, lookupTable_setTable_self]
              show 0 ≤ CompareLocation bp2.savedPoint.location bp.savedPoint.location
                cp.enableGTID
              rw [hb2]
              rw [hbpflag] at hle
              exact hle
            · have hne : s ≠ s0 ∨ t ≠ t0 := by
                by_cases h1 : s = s0
                · exact Or.inr (fun h2 => hst ⟨h1, h2⟩)
                · exact Or.inl h1
              show locStep cp.enableGTID (tableLoc cp s t) (tableLoc _ s t)
              unfold tableLoc
              rw [show lookupTable (setTable cp.points s0 t0 bp2) s t =
                  lookupTable cp.points s t from lookupTable_setTable_ne _ _ _ _ _ _ hne]
              exact locStep_refl _ _

/-- Over a run of saves in which every `entry.save` succeeds, each stored
location moves only forwards, step by step. -/
theorem runSaveOps_chain :
    ∀ (ops : List SaveOp) (cp : RemoteCheckPoint) (states : List RemoteCheckPoint),
      cp.WF → runSaveOps cp ops = some states → allSavesOk cp ops = true →
      List.Chain' (locStep cp.enableGTID)
        ((cp :: states).map (fun c => some (globalLoc c))) ∧
      ∀ s t, List.Chain' (locStep cp.enableGTID)
        ((cp :: states).map (fun c => tableLoc c s t)) := by
  intro ops
  induction ops with
  | nil =>
    intro cp states _ hrun _
    unfold runSaveOps at hrun
    cases Option.some.inj hrun
    exact ⟨List.chain'_singleton _, fun s t => List.chain'_singleton _⟩
  | cons op rest ih =>
    intro cp states hWF hrun hok
    unfold runSaveOps at hrun
    cases happ : applySaveOp cp op with
    | none => rw [happ] at hrun; simp at hrun
    | some cp2 =>
      rw [happ] at hrun
      have hrun2 : (match runSaveOps cp2 rest with
          | none => none
          | some rest2 => some (cp2 :: rest2)) = some states := hrun
      cases hrest : runSaveOps cp2 rest with
      | none => rw [hrest] at hrun2; simp at hrun2
      | some states2 =>
        rw [hrest] at hrun2
        have hstates : states = cp2 :: states2 := (Option.some.inj hrun2).symm
        subst hstates
        unfold allSavesOk at hok
        rw [happ] at hok
        rw [Bool.and_eq_true] at hok
        obtain ⟨hmonoWF, hflag, hgl, htl⟩ := saveStep_mono hWF happ hok.1
        have ihres := ih cp2 states2 hmonoWF hrest hok.2
        rw [hflag] at ihres
        constructor
        · rw [List.map_cons, List.map_cons, List.chain'_cons]
          refine ⟨hgl, ?_⟩
          rw [List.map_cons] at ihres
          exact ihres.1
        · intro s t
          rw [List.map_cons, List.map_cons, List.chain'_cons]
          refine ⟨htl s t, ?_⟩
          have := ihres.2 s t
          rw [List.map_cons] at this
          exact this

theorem saveTablePoint_panic_of (cp : RemoteCheckPoint) (s t : String) (loc : Location)
    (ti : Option TableInfo)
    (hg : 0 < CompareLocation (globalLoc cp) loc cp.enableGTID) :
    cp.saveTablePoint s t loc ti = none := by
  have hg2 : 0 < CompareLocation cp.globalPoint.savedPoint.location loc cp.enableGTID := hg
  unfold RemoteCheckPoint.saveTablePoint
  rw [if_pos hg2]

theorem saveGlobalPoint_eq_of_ok {cp : RemoteCheckPoint} {loc : Location} {b2 : BinlogPoint}
    (hs : cp.globalPoint.save loc none = .ok b2) :
    cp.saveGlobalPoint loc = { cp with globalPoint := b2 } := by
  unfold RemoteCheckPoint.saveGlobalPoint
  rw [hs]

/-! ## Claim C2: checkpoint save monotonicity -/

/-- Claim C2: `entry.save` returns an error — leaving the state unchanged —
exactly when the new location compares strictly less than the saved one
under the active order; and along any run of `SaveGlobalPoint` /
`SaveTablePoint` calls in which every underlying `entry.save` succeeds, the
stored saved location of the global entry and of every table entry forms a
non-decreasing sequence under the active order. -/
theorem claim_C2 :
    (∀ (b : BinlogPoint) (loc : Location) (ti : Option TableInfo),
      (b.save loc ti = .error .saveInvalidPos ↔
        CompareLocation loc b.savedPoint.location b.enableGTID < 0) ∧
      (0 ≤ CompareLocation loc b.savedPoint.location b.enableGTID →
        b.save loc ti = .ok { b with savedPoint := { location := loc, ti := ti } })) ∧
    (∀ (cp : RemoteCheckPoint) (loc : Location),
      CompareLocation loc (globalLoc cp) cp.globalPoint.enableGTID < 0 →
      cp.saveGlobalPoint loc = cp) ∧
    (∀ (cp : RemoteCheckPoint) (s t : String) (loc : Location) (ti : Option TableInfo)
        (bp : BinlogPoint), lookupTable cp.points s t = some bp →
      CompareLocation loc bp.savedPoint.location bp.enableGTID < 0 →
      ¬(0 < CompareLocation (globalLoc cp) loc cp.enableGTID) →
      cp.saveTablePoint s t loc ti = some cp) ∧
    (∀ (cp : RemoteCheckPoint) (ops : List SaveOp) (states : List RemoteCheckPoint),
      cp.WF → runSaveOps cp ops = some states → allSavesOk cp ops = true →
      List.Chain' (locStep cp.enableGTID)
        ((cp :: states).map (fun c => some (globalLoc c))) ∧
      ∀ s t, List.Chain' (locStep cp.enableGTID)
        ((cp :: states).map (fun c => tableLoc c s t))) := by
  refine ⟨?_, ?_, ?_, ?_⟩
  · intro b loc ti
    refine ⟨save_error_iff b loc ti, save_ok_of_le b loc ti⟩
  · intro cp loc h
    unfold RemoteCheckPoint.saveGlobalPoint
    rw [show cp.globalPoint.save loc none = .error .saveInvalidPos from
      (save_error_iff _ _ _).mpr h]
  · intro cp s t loc ti bp hlk herr hg
    have hg2 : ¬(0 < CompareLocation cp.globalPoint.savedPoint.location loc cp.enableGTID) := hg
    unfold RemoteCheckPoint.saveTablePoint
    rw [if_neg hg2, hlk]
    show (match bp.save loc ti with
        | Except.ok point2 => some { cp with points := setTable cp.points s t point2 }
        | Except.error _ => some cp) = some cp
    rw [show bp.save loc ti = .error .saveInvalidPos from (save_error_iff _ _ _).mpr herr]
  · intro cp ops states hWF hrun hok
    exact runSaveOps_chain ops cp states hWF hrun hok

/-- Witness for C2 at a concrete run: create a table entry, save the global
point, then advance the table entry; the run succeeds and both traces are
forward-moving chains. -/
theorem claim_C2_witness :
    (cpFresh.globalPoint.save loc1 none =
      .ok { cpFresh.globalPoint with savedPoint := { location := loc1, ti := none } }) ∧
    (∃ states, runSaveOps cpFresh saveOpsW = some states ∧
      allSavesOk cpFresh saveOpsW = true ∧
      List.Chain' (locStep cpFresh.enableGTID)
        ((cpFresh :: states).map (fun c => some (globalLoc c))) ∧
      List.Chain' (locStep cpFresh.enableGTID)
        ((cpFresh :: states).map (fun c => tableLoc c "db" "tbl"))) := by
  constructor
  · exact (claim_C2.1 cpFresh.globalPoint loc1 none).2 (by decide)
  · cases hrun : runSaveOps cpFresh saveOpsW with
    | none => exact absurd hrun (by decide)
    | some states =>
      refine ⟨states, rfl, by decide, ?_, ?_⟩
      · exact (claim_C2.2.2.2 cpFresh saveOpsW states
          ⟨by decide, by decide, by decide, by decide⟩ hrun (by decide)).1
      · exact (claim_C2.2.2.2 cpFresh saveOpsW states
          ⟨by decide, by decide, by decide, by decide⟩ hrun (by decide)).2 "db" "tbl"

/-! ## Claim C3: SaveTablePoint panic condition -/

/-- Claim C3: `saveTablePoint` panics exactly when the global saved location
compares strictly greater than the new location; otherwise it inserts a
brand-new entry with `saved = location` and a fresh flushed location, or
calls `entry.save` on the existing entry (which leaves it unchanged on
rejection); in particular, after a successful `SaveGlobalPoint(L1)`, a call
`SaveTablePoint(t, L0)` with `L0 < L1` panics. -/
theorem claim_C3 (cp : RemoteCheckPoint) (s t : String) (loc : Location)
    (ti : Option TableInfo) :
    (cp.saveTablePoint s t loc ti = none ↔
      0 < CompareLocation (globalLoc cp) loc cp.enableGTID) ∧
    (¬(0 < CompareLocation (globalLoc cp) loc cp.enableGTID) →
      (lookupTable cp.points s t = none →
        cp.saveTablePoint s t loc ti =
          some { cp with points := (setTable cp.points s t
                    (newBinlogPoint loc Location.fresh ti none cp.enableGTID)) }) ∧
      (∀ bp, lookupTable cp.points s t = some bp →
        (∀ bp2, bp.save loc ti = .ok bp2 →
          cp.saveTablePoint s t loc ti =
            some { cp with points := setTable cp.points s t bp2 }) ∧
        (∀ e, bp.save loc ti = .error e → cp.saveTablePoint s t loc ti = some cp))) ∧
    (∀ L1 L0 : Location,
      0 ≤ CompareLocation L1 (globalLoc cp) cp.globalPoint.enableGTID →
      CompareLocation L0 L1 cp.enableGTID < 0 →
      (cp.saveGlobalPoint L1).saveTablePoint s t L0 ti = none) := by
  refine ⟨?_, ?_, ?_⟩
  · by_cases hg : 0 < CompareLocation (globalLoc cp) loc cp.enableGTID
    · refine ⟨fun _ => hg, fun _ => saveTablePoint_panic_of cp s t loc ti hg⟩
    · refine ⟨?_, fun hc => absurd hc hg⟩
      intro hnone
      exfalso
      have hg2 : ¬(0 < CompareLocation cp.globalPoint.savedPoint.location loc
          cp.enableGTID) := hg
      unfold RemoteCheckPoint.saveTablePoint at hnone
      rw [if_neg hg2] at hnone
      cases hlk : lookupTable cp.points s t with
      | none =>
        rw [hlk] at hnone
        exact Option.noConfusion hnone
      | some bp =>
        rw [hlk] at hnone
        have hnone2 : (match bp.save loc ti with
            | Except.ok point2 => some { cp with points := setTable cp.points s t point2 }
            | Except.error _ => some cp) = none := hnone
        cases hs : bp.save loc ti with
        | ok bp2 =>
          rw [hs] at hnone2
          exact Option.noConfusion hnone2
        | error e =>
          rw [hs] at hnone2
          exact Option.noConfusion hnone2
  · intro hg
    have hg2 : ¬(0 < CompareLocation cp.globalPoint.savedPoint.location loc
        cp.enableGTID) := hg
    constructor
    · intro hlk
      unfold RemoteCheckPoint.saveTablePoint
      rw [if_neg hg2, hlk]
    · intro bp hlk
      constructor
      · intro bp2 hs
        unfold RemoteCheckPoint.saveTablePoint
        rw [if_neg hg2, hlk]
        show (match bp.save loc ti with
            | Except.ok point2 => some { cp with points := setTable cp.points s t point2 }
            | Except.error _ => some cp) =
          some { cp with points := setTable cp.points s t bp2 }
        rw [hs]
      · intro e hs
        unfold RemoteCheckPoint.saveTablePoint
        rw [if_neg hg2, hlk]
        show (match bp.save loc ti with
            | Except.ok point2 => some { cp with points := setTable cp.points s t point2 }
            | Except.error _ => some cp) = some cp
        rw [hs]
  · intro L1 L0 hsave hlt
    have hok : cp.globalPoint.save L1 none =
        .ok { cp.globalPoint with savedPoint := { location := L1, ti := none } } :=
      save_ok_of_le _ _ _ hsave
    rw [saveGlobalPoint_eq_of_ok hok]
    apply saveTablePoint_panic_of
    show 0 < CompareLocation L1 L0 cp.enableGTID
    rw [CompareLocation_neg L1 L0]
    omega

/-- Witness for C3: on the fresh engine, saving global `loc2` and then a
table point at the older `loc1` hits the panic; and panic-free saves insert
or advance as described. -/
theorem claim_C3_witness :
    (cpFresh.saveGlobalPoint loc2).saveTablePoint "db" "tbl" loc1 (some ti1) = none ∧
    cpFresh.saveTablePoint "db" "tbl" loc1 (some ti1) =
      some { cpFresh with points := (setTable cpFresh.points "db" "tbl"
               (newBinlogPoint loc1 Location.fresh (some ti1) none cpFresh.enableGTID)) } :=
  ⟨(claim_C3 cpFresh "db" "tbl" loc1 (some ti1)).2.2 loc2 loc1 (by decide) (by decide),
   ((claim_C3 cpFresh "db" "tbl" loc1 (some ti1)).2.1 (by decide)).1 (by decide)⟩

/-! ## Snapshot lookup lemmas -/

theorem lookup_keys_none {α : Type} {t : String} :
    ∀ {m : List (String × α)}, (∀ q ∈ m, q.1 ≠ t) → m.lookup t = none := by
  intro m
  induction m with
  | nil => intro _; rfl
  | cons p rest ih =>
    intro h
    rw [show p = (p.1, p.2) from rfl, lookup_cons, if_neg]
    · exact ih (fun q hq => h q (List.mem_cons_of_mem _ hq))
    · intro ht
      exact h p (List.mem_cons_self _ _) ht.symm

/-- The inner snapshot copy keeps exactly the saved points of the
out-of-date entries, keyed as before. -/
theorem snapInner_lookup {m : List (String × BinlogPoint)}
    (hpw : m.Pairwise (fun a b => a.1 ≠ b.1)) (t : String) :
    (m.filterMap (fun q =>
        if q.2.outOfDate then some (q.1, q.2.savedPoint) else none)).lookup t =
      (match m.lookup t with
       | none => none
       | some bp => if bp.outOfDate then some bp.savedPoint else none) := by
  induction m with
  | nil => rfl
  | cons p rest ih =>
    rw [List.pairwise_cons] at hpw
    obtain ⟨k, bp0⟩ := p
    by_cases ht : t = k
    · by_cases hood : bp0.outOfDate
      · simp only [List.filterMap_cons, if_pos hood, lookup_cons, if_pos ht]
      · simp only [List.filterMap_cons, if_neg hood, lookup_cons, if_pos ht]
        apply lookup_keys_none
        intro q hq
        obtain ⟨orig, horig, hg⟩ := List.mem_filterMap.mp hq
        have hkey : orig.1 = q.1 := by
          by_cases ho2 : orig.2.outOfDate
          · rw [if_pos ho2] at hg
            cases hg
            rfl
          · rw [if_neg ho2] at hg
            cases hg
        rw [← hkey, ht]
        exact fun hh => hpw.1 orig horig hh.symm
    · by_cases hood : bp0.outOfDate
      · simp only [List.filterMap_cons, if_pos hood, lookup_cons, if_neg ht]
        exact ih hpw.2
      · simp only [List.filterMap_cons, if_neg hood, lookup_cons, if_neg ht]
        exact ih hpw.2

/-- The outer snapshot copy keeps exactly the schemas with at least one
out-of-date entry. -/
theorem snapOuter_lookup {pts : PointsMap}
    (hpw : pts.Pairwise (fun p q => p.1 ≠ q.1)) (s : String) :
    (snapshotTablePoints pts).lookup s =
      (match pts.lookup s with
       | none => none
       | some m =>
         if (m.filterMap (fun q =>
             if q.2.outOfDate then some (q.1, q.2.savedPoint) else none)).isEmpty then none
         else some (m.filterMap (fun q =>
             if q.2.outOfDate then some (q.1, q.2.savedPoint) else none))) := by
  induction pts with
  | nil => rfl
  | cons p rest ih =>
    rw [List.pairwise_cons] at hpw
    have hrest := ih hpw.2
    obtain ⟨k, m0⟩ := p
    unfold snapshotTablePoints at hrest ⊢
    rw [List.map_cons, List.filter_cons]
    by_cases hemp : ((m0.filterMap (fun q =>
        if q.2.outOfDate then some (q.1, q.2.savedPoint) else none))).isEmpty
    · simp only [hemp, Bool.not_true, Bool.false_eq_true, if_false]
      by_cases hs : s = k
      · simp only [lookup_cons, if_pos hs]
        rw [if_pos hemp]
        apply lookup_keys_none
        intro q hq
        rw [List.mem_filter] at hq
        obtain ⟨orig, horig, hf⟩ := List.mem_map.mp hq.1
        have hkey : q.1 = orig.1 := by rw [← hf]
        rw [hkey, hs]
        exact fun hh => hpw.1 orig horig hh.symm
      · rw [lookup_cons, if_neg hs]
        exact hrest
    · have hemp2 : ((m0.filterMap (fun q =>
          if q.2.outOfDate then some (q.1, q.2.savedPoint) else none))).isEmpty = false := by
        revert hemp
        cases (m0.filterMap (fun q =>
          if q.2.outOfDate then some (q.1, q.2.savedPoint) else none)).isEmpty
        · intro _; rfl
        · intro hh; exact absurd rfl hh
      have hne : ¬(((m0.filterMap (fun q =>
          if q.2.outOfDate then some (q.1, q.2.savedPoint) else none))).isEmpty = true) := by
        rw [hemp2]
        exact Bool.false_ne_true
      simp only [hemp2, Bool.not_false, if_true]
      rw [lookup_cons, lookup_cons]
      by_cases hs : s = k
      · simp only [if_pos hs, if_neg hne]
      · simp only [if_neg hs]
        exact hrest

/-- Snapshot-copy characterisation: an entry appears in the snapshot map
exactly when the live entry is out of date, and then it carries the saved
point. -/
theorem snapshotTablePoints_lookup {pts : PointsMap}
    (h1 : pts.Pairwise (fun p q => p.1 ≠ q.1))
    (h2 : ∀ p ∈ pts, p.2.Pairwise (fun a b => a.1 ≠ b.1)) (s t : String) (tp : TablePoint) :
    lookupTP (snapshotTablePoints pts) s t = some tp ↔
      ∃ bp, lookupTable pts s t = some bp ∧ bp.outOfDate = true ∧ tp = bp.savedPoint := by
  unfold lookupTP lookupTable
  rw [snapOuter_lookup h1]
  cases hs : pts.lookup s with
  | none => simp
  | some m =>
    have hpwm : m.Pairwise (fun a b => a.1 ≠ b.1) := h2 _ (lookup_mem hs)
    show (match (if (m.filterMap (fun q =>
        if q.2.outOfDate then some (q.1, q.2.savedPoint) else none)).isEmpty then none
        else some (m.filterMap (fun q =>
        if q.2.outOfDate then some (q.1, q.2.savedPoint) else none))) with
      | none => none
      | some mm => mm.lookup t) = some tp ↔
      ∃ bp, m.lookup t = some bp ∧ bp.outOfDate = true ∧ tp = bp.savedPoint
    by_cases hemp : ((m.filterMap (fun q =>
        if q.2.outOfDate then some (q.1, q.2.savedPoint) else none)).isEmpty : Bool)
    · rw [if_pos hemp]
      show (none : Option TablePoint) = some tp ↔ _
      simp only [false_iff, reduceCtorEq]
      rintro ⟨bp, hbp, hood, htp⟩
      have hinner := snapInner_lookup hpwm t
      rw [hbp] at hinner
      have hinner2 : List.lookup t (m.filterMap (fun q =>
          if q.2.outOfDate then some (q.1, q.2.savedPoint) else none)) =
          if bp.outOfDate = true then some bp.savedPoint else none := hinner
      have hemp2 : (m.filterMap (fun q =>
          if q.2.outOfDate then some (q.1, q.2.savedPoint) else none)) = [] := by
        revert hemp
        cases m.filterMap (fun q =>
          if q.2.outOfDate then some (q.1, q.2.savedPoint) else none)
        · intro _; rfl
        · intro hh; exact absurd hh (by simp [List.isEmpty])
      rw [if_pos hood, hemp2] at hinner2
      exact Option.noConfusion hinner2
    · rw [if_neg hemp]
      show (m.filterMap (fun q =>
          if q.2.outOfDate then some (q.1, q.2.savedPoint) else none)).lookup t = some tp ↔ _
      rw [snapInner_lookup hpwm]
      cases hm : m.lookup t with
      | none => simp
      | some bp =>
        show (if bp.outOfDate = true then some bp.savedPoint else none) = some tp ↔ _
        by_cases hood : bp.outOfDate
        · rw [if_pos hood]
          constructor
          · intro h
            exact ⟨bp, rfl, hood, (Option.some.inj h).symm⟩
          · rintro ⟨bp2, hbp2, _, htp⟩
            cases Option.some.inj hbp2
            rw [htp]
        · rw [if_neg hood]
          constructor
          · intro h
            exact Option.noConfusion h
          · rintro ⟨bp2, hbp2, hood2, _⟩
            cases Option.some.inj hbp2
            exact absurd hood2 (by simpa using hood)

/-! ## Snapshot equations -/

theorem snapshot_eq (cp : RemoteCheckPoint) (isSyncFlush : Bool) (now : Time) :
    cp.snapshot isSyncFlush now =
      (if snapshotEmptyCond cp isSyncFlush then
        (none, { cp with snapshotSeq := cp.snapshotSeq + 1 })
      else
        (some { id := cp.snapshotSeq + 1, globalPos := cp.globalPoint.savedPoint.location },
         { cp with
             snapshotSeq := cp.snapshotSeq + 1
             snapshots := cp.snapshots ++ [{
               id := cp.snapshotSeq + 1
               globalPoint := if snapshotFlushGlobal cp isSyncFlush then
                   some cp.globalPoint.savedPoint else none
               globalPointSaveTime := if snapshotFlushGlobal cp isSyncFlush then
                   some now else none
               points := snapshotTablePoints cp.points }]
             lastSnapshotCreationTime := some now })) := rfl

theorem snapshot_seq_succ (cp : RemoteCheckPoint) (b : Bool) (now : Time) :
    (cp.snapshot b now).2.snapshotSeq = cp.snapshotSeq + 1 := by
  rw [snapshot_eq]
  by_cases hc : snapshotEmptyCond cp b = true
  · rw [if_pos hc]
  · rw [if_neg hc]

theorem snapshot_none_iff (cp : RemoteCheckPoint) (b : Bool) (now : Time) :
    (cp.snapshot b now).1 = none ↔ snapshotEmptyCond cp b = true := by
  rw [snapshot_eq]
  by_cases hc : snapshotEmptyCond cp b = true
  · rw [if_pos hc]
    simp [hc]
  · rw [if_neg hc]
    simp [hc]

theorem snapshot_some_id {cp : RemoteCheckPoint} {b : Bool} {now : Time} {info : SnapshotInfo}
    (h : (cp.snapshot b now).1 = some info) : info.id = cp.snapshotSeq + 1 := by
  rw [snapshot_eq] at h
  by_cases hc : snapshotEmptyCond cp b = true
  · rw [if_pos hc] at h
    exact Option.noConfusion h
  · rw [if_neg hc] at h
    cases Option.some.inj h
    rfl

theorem snapshotFlushGlobal_iff (cp : RemoteCheckPoint) (b : Bool) :
    snapshotFlushGlobal cp b = true ↔
      (cp.globalPoint.outOfDate = true ∨ cp.globalPointSaveTime = none ∨
        (b = true ∧ cp.needFlushSafeModeExitPoint = true)) := by
  unfold snapshotFlushGlobal
  cases hg : cp.globalPoint.outOfDate <;> cases hb : b <;>
    cases hf : cp.needFlushSafeModeExitPoint <;> cases ht : cp.globalPointSaveTime <;>
    simp

theorem snapshotEmptyCond_iff (cp : RemoteCheckPoint) (b : Bool) :
    snapshotEmptyCond cp b = true ↔
      ((∀ p ∈ cp.points, ∀ q ∈ p.2, q.2.outOfDate = false) ∧
        cp.globalPoint.outOfDate = false ∧ cp.globalPointSaveTime ≠ none ∧
        ¬(b = true ∧ cp.needFlushSafeModeExitPoint = true)) := by
  unfold snapshotEmptyCond
  rw [Bool.and_eq_true, Bool.not_eq_true']
  have htab : (snapshotTablePoints cp.points).isEmpty = true ↔
      (∀ p ∈ cp.points, ∀ q ∈ p.2, q.2.outOfDate = false) := by
    unfold snapshotTablePoints
    rw [List.isEmpty_iff, List.filter_eq_nil_iff]
    constructor
    · intro h p hp q hq
      have := h _ (List.mem_map.mpr ⟨p, hp, rfl⟩)
      simp only [Bool.not_eq_true', Bool.not_eq_false] at this
      rw [List.isEmpty_iff, List.filterMap_eq_nil_iff] at this
      have hgq := this q hq
      by_cases hood : q.2.outOfDate
      · rw [if_pos hood] at hgq
        exact Option.noConfusion hgq
      · simpa using hood
    · intro h a ha
      obtain ⟨p, hp, hf⟩ := List.mem_map.mp ha
      simp only [Bool.not_eq_true', Bool.not_eq_false]
      rw [← hf]
      show (p.2.filterMap _).isEmpty = true
      rw [List.isEmpty_iff, List.filterMap_eq_nil_iff]
      intro q hq
      rw [if_neg]
      rw [h p hp q hq]
      exact Bool.false_ne_true
  have hflu : snapshotFlushGlobal cp b = false ↔
      (cp.globalPoint.outOfDate = false ∧ cp.globalPointSaveTime ≠ none ∧
        ¬(b = true ∧ cp.needFlushSafeModeExitPoint = true)) := by
    unfold snapshotFlushGlobal
    cases hg : cp.globalPoint.outOfDate <;> cases hb : b <;>
      cases hf : cp.needFlushSafeModeExitPoint <;> cases ht : cp.globalPointSaveTime <;>
      simp
  rw [htab, hflu]

theorem snapshotRun_cons (cp : RemoteCheckPoint) (b : Bool) (t : Time)
    (rest : List (Bool × Time)) :
    snapshotRun cp ((b, t) :: rest) =
      ((cp.snapshot b t).1 :: (snapshotRun (cp.snapshot b t).2 rest).1,
       (snapshotRun (cp.snapshot b t).2 rest).2) := rfl

theorem snapshotRun_ids_gt :
    ∀ (l : List (Bool × Time)) (cp : RemoteCheckPoint) (o : Option SnapshotInfo),
      o ∈ (snapshotRun cp l).1 → ∀ info, o = some info → cp.snapshotSeq < info.id := by
  intro l
  induction l with
  | nil =>
    intro cp o ho
    exact absurd ho (by simp [snapshotRun])
  | cons p rest ih =>
    intro cp o ho info hinfo
    obtain ⟨b, t⟩ := p
    rw [snapshotRun_cons] at ho
    rcases List.mem_cons.mp ho with h | h
    · subst hinfo
      have := snapshot_some_id (h ▸ rfl : (cp.snapshot b t).1 = some info)
      omega
    · have hlt := ih (cp.snapshot b t).2 o h info hinfo
      have hseq := snapshot_seq_succ cp b t
      omega

theorem snapshotRun_pairwise :
    ∀ (l : List (Bool × Time)) (cp : RemoteCheckPoint),
      (((snapshotRun cp l).1.filterMap id).Pairwise (fun i j => i.id < j.id)) := by
  intro l
  induction l with
  | nil => intro cp; simp [snapshotRun]
  | cons p rest ih =>
    intro cp
    obtain ⟨b, t⟩ := p
    rw [snapshotRun_cons, List.filterMap_cons]
    cases hr : (cp.snapshot b t).1 with
    | none => exact ih (cp.snapshot b t).2
    | some i =>
      show ((i :: ((snapshotRun (cp.snapshot b t).2 rest).1.filterMap id)).Pairwise
        (fun i j => i.id < j.id))
      rw [List.pairwise_cons]
      refine ⟨?_, ih (cp.snapshot b t).2⟩
      intro j hj
      obtain ⟨o, ho, hoj⟩ := List.mem_filterMap.mp hj
      have hgt := snapshotRun_ids_gt rest (cp.snapshot b t).2 o ho j hoj
      have hseq := snapshot_seq_succ cp b t
      have hid := snapshot_some_id hr
      omega

/-- Claim C5: `Snapshot(isSyncFlush)` copies exactly the table entries whose
saved location is strictly newer than their flushed location; the global
entry is included exactly when it is out of date, or its save time is still
zero ("never saved"), or `isSyncFlush` with the needs-flush-safe-mode flag
set; the call returns nil exactly when nothing qualifies, appending nothing;
otherwise the snapshot is appended to the FIFO queue; and across any
sequence of `Snapshot` calls the minted ids are strictly increasing. -/
theorem claim_C5 (cp : RemoteCheckPoint) (isSyncFlush : Bool) (now : Time) (hWF : cp.WF) :
    ((cp.snapshot isSyncFlush now).1 = none ↔
      ((∀ p ∈ cp.points, ∀ q ∈ p.2, q.2.outOfDate = false) ∧
        cp.globalPoint.outOfDate = false ∧ cp.globalPointSaveTime ≠ none ∧
        ¬(isSyncFlush = true ∧ cp.needFlushSafeModeExitPoint = true))) ∧
    ((cp.snapshot isSyncFlush now).1 = none →
      (cp.snapshot isSyncFlush now).2 = { cp with snapshotSeq := cp.snapshotSeq + 1 }) ∧
    (∀ info, (cp.snapshot isSyncFlush now).1 = some info →
      info.id = cp.snapshotSeq + 1 ∧
      ∃ snap, (cp.snapshot isSyncFlush now).2.snapshots = cp.snapshots ++ [snap] ∧
        snap.id = cp.snapshotSeq + 1 ∧
        (∀ s t tp, lookupTP snap.points s t = some tp ↔
          ∃ bp, lookupTable cp.points s t = some bp ∧ bp.outOfDate = true ∧
            tp = bp.savedPoint) ∧
        (snap.globalPoint.isSome = true ↔
          (cp.globalPoint.outOfDate = true ∨ cp.globalPointSaveTime = none ∨
            (isSyncFlush = true ∧ cp.needFlushSafeModeExitPoint = true))) ∧
        (∀ gp, snap.globalPoint = some gp → gp = cp.globalPoint.savedPoint)) ∧
    ((cp.snapshot isSyncFlush now).2.snapshotSeq = cp.snapshotSeq + 1) ∧
    (∀ l, (((snapshotRun cp l).1.filterMap id).Pairwise (fun i j => i.id < j.id))) := by
  obtain ⟨hP1, hP2, hP3, hG⟩ := hWF
  refine ⟨?_, ?_, ?_, snapshot_seq_succ cp isSyncFlush now, fun l => snapshotRun_pairwise l cp⟩
  · rw [snapshot_none_iff _ _ now, snapshotEmptyCond_iff]
  · intro hnone
    rw [snapshot_none_iff] at hnone
    rw [snapshot_eq, if_pos hnone]
  · intro info hinfo
    have hc : ¬(snapshotEmptyCond cp isSyncFlush = true) := by
      intro hc
      rw [show (cp.snapshot isSyncFlush now).1 = none from
        (snapshot_none_iff cp isSyncFlush now).mpr hc] at hinfo
      exact Option.noConfusion hinfo
    refine ⟨snapshot_some_id hinfo, ?_⟩
    refine ⟨{ id := cp.snapshotSeq + 1
              globalPoint := if snapshotFlushGlobal cp isSyncFlush then
                  some cp.globalPoint.savedPoint else none
              globalPointSaveTime := if snapshotFlushGlobal cp isSyncFlush then
                  some now else none
              points := snapshotTablePoints cp.points }, ?_, rfl, ?_, ?_, ?_⟩
    · rw [snapshot_eq, if_neg hc]
    · intro s t tp
      exact snapshotTablePoints_lookup hP1 hP2 s t tp
    · by_cases hf : snapshotFlushGlobal cp isSyncFlush = true
      · rw [show ((if snapshotFlushGlobal cp isSyncFlush then
            some cp.globalPoint.savedPoint else none) : Option TablePoint) =
            some cp.globalPoint.savedPoint from if_pos hf]
        simp only [Option.isSome_some, true_iff]
        exact (snapshotFlushGlobal_iff cp isSyncFlush).mp hf
      · rw [show ((if snapshotFlushGlobal cp isSyncFlush then
            some cp.globalPoint.savedPoint else none) : Option TablePoint) = none from
            if_neg hf]
        simp only [Option.isSome_none, Bool.false_eq_true, false_iff]
        intro hor
        exact hf ((snapshotFlushGlobal_iff cp isSyncFlush).mpr hor)
    · intro gp hgp
      by_cases hf : snapshotFlushGlobal cp isSyncFlush = true
      · rw [if_pos hf] at hgp
        exact (Option.some.inj hgp).symm
      · rw [if_neg hf] at hgp
        exact Option.noConfusion hgp

/-- Witness for C5 at a concrete engine with one out-of-date table entry:
the snapshot call mints id 1, bumps the sequence, appends one snapshot to
the queue, and that snapshot contains the saved point of the entry. -/
theorem claim_C5_witness :
    (cpTabled.snapshot true 7).2.snapshotSeq = 1 ∧
    ∃ snap, (cpTabled.snapshot true 7).2.snapshots = cpTabled.snapshots ++ [snap] ∧
      snap.id = 1 ∧ lookupTP snap.points "db" "tbl" = some bpTable.savedPoint := by
  have hsome : (cpTabled.snapshot true 7).1 =
      some { id := 1, globalPos := cpTabled.globalPoint.savedPoint.location } := by decide
  have hmain := claim_C5 cpTabled true 7 ⟨by decide, by decide, by decide, by decide⟩
  refine ⟨hmain.2.2.2.1, ?_⟩
  obtain ⟨_, snap, hq, hid, hlook, _, _⟩ := hmain.2.2.1 _ hsome
  refine ⟨snap, hq, hid, ?_⟩
  exact (hlook "db" "tbl" bpTable.savedPoint).mpr ⟨bpTable, by decide, by decide, rfl⟩

/-! ## FlushPointsExcept lemmas -/

theorem findTuple_append (a b : List (String × String × BinlogPoint × TablePoint))
    (s t : String) :
    findTuple (a ++ b) s t =
      (match findTuple a s t with
       | some r => some r
       | none => findTuple b s t) := by
  induction a with
  | nil => rfl
  | cons u rest ih =>
    rw [List.cons_append]
    by_cases hc : u.1 = s ∧ u.2.1 = t
    · show (if u.1 = s ∧ u.2.1 = t then some u.2.2 else findTuple (rest ++ b) s t) = _
      rw [if_pos hc]
      rw [show findTuple (u :: rest) s t = some u.2.2 by
        unfold findTuple; rw [if_pos hc]]
    · show (if u.1 = s ∧ u.2.1 = t then some u.2.2 else findTuple (rest ++ b) s t) = _
      rw [if_neg hc]
      rw [show findTuple (u :: rest) s t = findTuple rest s t by
        show (if u.1 = s ∧ u.2.1 = t then some u.2.2 else findTuple rest s t) = findTuple rest s t
        rw [if_neg hc]]
      exact ih

theorem findTuple_none_of {l : List (String × String × BinlogPoint × TablePoint)}
    {s t : String} (h : ∀ v ∈ l, ¬(v.1 = s ∧ v.2.1 = t)) : findTuple l s t = none := by
  induction l with
  | nil => rfl
  | cons u rest ih =>
    unfold findTuple
    rw [if_neg (h u (List.mem_cons_self _ _))]
    exact ih (fun v hv => h v (List.mem_cons_of_mem _ hv))

theorem findTuple_map_schema (schema : String) (l1 : List (String × BinlogPoint × TablePoint))
    (s t : String) :
    findTuple (l1.map (fun q => (schema, q))) s t =
      if s = schema then l1.lookup t else none := by
  induction l1 with
  | nil =>
    show (none : Option (BinlogPoint × TablePoint)) = if s = schema then none else none
    rw [ite_self]
  | cons q rest ih =>
    rw [List.map_cons]
    unfold findTuple
    by_cases hs : s = schema
    · by_cases ht : t = q.1
      · rw [if_pos ⟨hs.symm, ht.symm⟩, if_pos hs,
          show q = (q.1, q.2) from rfl, lookup_cons, if_pos ht]
      · rw [if_neg (fun hc => ht hc.2.symm), ih, if_pos hs, if_pos hs,
          show q = (q.1, q.2) from rfl, lookup_cons, if_neg ht]
    · rw [if_neg (fun hc => hs hc.1.symm), ih, if_neg hs, if_neg hs]

theorem collectTableTuples_keys {cp : RemoteCheckPoint} {schema : String}
    {excepts : List (String × String)} :
    ∀ {m : List (String × TablePoint)} {l : List (String × BinlogPoint × TablePoint)},
      collectTableTuples cp schema excepts m = some l → ∀ u ∈ l, ∃ q ∈ m, u.1 = q.1 := by
  intro m
  induction m with
  | nil =>
    intro l hc u hu
    unfold collectTableTuples at hc
    cases Option.some.inj hc
    exact absurd hu (by simp)
  | cons q0 rest ih =>
    intro l hc u hu
    unfold collectTableTuples at hc
    by_cases hex : excepts.contains (schema, q0.1) = true
    · rw [show q0 = (q0.1, q0.2) from rfl, if_pos hex] at hc
      obtain ⟨q, hq, he⟩ := ih hc u hu
      exact ⟨q, List.mem_cons_of_mem _ hq, he⟩
    · rw [show q0 = (q0.1, q0.2) from rfl, if_neg hex] at hc
      cases hlk : lookupTable cp.points schema q0.1 with
      | none =>
        rw [hlk] at hc
        exact Option.noConfusion hc
      | some bp =>
        rw [hlk] at hc
        cases hrest : collectTableTuples cp schema excepts rest with
        | none =>
          rw [hrest] at hc
          exact Option.noConfusion hc
        | some l0 =>
          rw [hrest] at hc
          have hl : l = if bp.outOfDateBy q0.2.location then (q0.1, bp, q0.2) :: l0 else l0 :=
            (Option.some.inj hc).symm
          subst hl
          by_cases hood : bp.outOfDateBy q0.2.location = true
          · rw [if_pos hood] at hu
            rcases List.mem_cons.mp hu with h | h
            · exact ⟨(q0.1, q0.2), List.mem_cons_self _ _, by rw [h]⟩
            · obtain ⟨q, hq, he⟩ := ih hrest u h
              exact ⟨q, List.mem_cons_of_mem _ hq, he⟩
          · rw [if_neg hood] at hu
            obtain ⟨q, hq, he⟩ := ih hrest u hu
            exact ⟨q, List.mem_cons_of_mem _ hq, he⟩

theorem collectTableTuples_char {cp : RemoteCheckPoint} {schema : String}
    {excepts : List (String × String)} :
    ∀ {m : List (String × TablePoint)} {l : List (String × BinlogPoint × TablePoint)},
      collectTableTuples cp schema excepts m = some l →
      m.Pairwise (fun a b => a.1 ≠ b.1) →
      l.Pairwise (fun a b => a.1 ≠ b.1) ∧
      (∀ t bp tp, l.lookup t = some (bp, tp) ↔
        (m.lookup t = some tp ∧ excepts.contains (schema, t) = false ∧
         lookupTable cp.points schema t = some bp ∧ bp.outOfDateBy tp.location = true)) := by
  intro m
  induction m with
  | nil =>
    intro l hc _
    unfold collectTableTuples at hc
    cases Option.some.inj hc
    refine ⟨List.Pairwise.nil, ?_⟩
    intro t bp tp
    constructor
    · intro h
      exact Option.noConfusion h
    · rintro ⟨h1, _⟩
      exact Option.noConfusion h1
  | cons q0 rest ih =>
    intro l hc hpw
    obtain ⟨t0, tp0⟩ := q0
    rw [List.pairwise_cons] at hpw
    by_cases hex : excepts.contains (schema, t0) = true
    · have hc2 : collectTableTuples cp schema excepts rest = some l := by
        unfold collectTableTuples at hc
        rw [if_pos hex] at hc
        exact hc
      obtain ⟨hply, hiff⟩ := ih hc2 hpw.2
      refine ⟨hply, ?_⟩
      intro t bp tp
      by_cases ht : t = t0
      · subst ht
        constructor
        · intro hl
          exfalso
          have hmem := lookup_mem ((hiff t bp tp).mp hl).1
          exact hpw.1 _ hmem rfl
        · rintro ⟨h1, h2, _⟩
          rw [hex] at h2
          exact absurd h2 (by simp)
      · rw [lookup_cons, if_neg ht]
        exact hiff t bp tp
    · have hexf : excepts.contains (schema, t0) = false := by
        revert hex
        cases excepts.contains (schema, t0)
        · intro _; rfl
        · intro hh; exact absurd rfl hh
      cases hlk : lookupTable cp.points schema t0 with
      | none =>
        exfalso
        unfold collectTableTuples at hc
        rw [if_neg hex, hlk] at hc
        exact Option.noConfusion hc
      | some bp0 =>
        cases hrest : collectTableTuples cp schema excepts rest with
        | none =>
          exfalso
          unfold collectTableTuples at hc
          rw [if_neg hex, hlk, hrest] at hc
          exact Option.noConfusion hc
        | some l0 =>
          have hl : l = if bp0.outOfDateBy tp0.location then (t0, bp0, tp0) :: l0 else l0 := by
            unfold collectTableTuples at hc
            rw [if_neg hex, hlk, hrest] at hc
            exact (Option.some.inj hc).symm
          obtain ⟨hply, hiff⟩ := ih hrest hpw.2
          subst hl
          by_cases hood : bp0.outOfDateBy tp0.location = true
          · rw [if_pos hood]
            constructor
            · rw [List.pairwise_cons]
              refine ⟨?_, hply⟩
              intro u hu
              obtain ⟨q, hq, he⟩ := collectTableTuples_keys hrest u hu
              show t0 ≠ u.1
              rw [he]
              exact hpw.1 q hq
            · intro t bp tp
              rw [lookup_cons, lookup_cons]
              by_cases ht : t = t0
              · rw [if_pos ht, if_pos ht]
                subst ht
                constructor
                · intro h
                  have hpair : (bp0, tp0) = (bp, tp) := Option.some.inj h
                  rw [Prod.mk.injEq] at hpair
                  rw [← hpair.1, ← hpair.2]
                  exact ⟨rfl, hexf, hlk, hood⟩
                · rintro ⟨h1, _, h3, _⟩
                  have htp : tp0 = tp := Option.some.inj h1
                  rw [hlk] at h3
                  have hbp : bp0 = bp := Option.some.inj h3
                  rw [htp, hbp]
              · rw [if_neg ht, if_neg ht]
                exact hiff t bp tp
          · rw [if_neg hood]
            refine ⟨hply, ?_⟩
            intro t bp tp
            rw [lookup_cons]
            by_cases ht : t = t0
            · rw [if_pos ht]
              subst ht
              constructor
              · intro h
                exfalso
                have hmem := lookup_mem ((hiff t bp tp).mp h).1
                obtain ⟨q, hq, he⟩ := List.mem_map.mp (List.mem_map_of_mem Prod.fst hmem)
                exact hpw.1 ⟨t, tp⟩ hmem rfl
              · rintro ⟨h1, _, h3, h4⟩
                exfalso
                have htp : tp0 = tp := Option.some.inj h1
                rw [hlk] at h3
                have hbp : bp0 = bp := Option.some.inj h3
                rw [← htp, ← hbp] at h4
                exact hood h4
            · rw [if_neg ht]
              exact hiff t bp tp

theorem collectFlushTuples_keys {cp : RemoteCheckPoint} {excepts : List (String × String)} :
    ∀ {sp : List (String × List (String × TablePoint))}
      {tuples : List (String × String × BinlogPoint × TablePoint)},
      collectFlushTuples cp excepts sp = some tuples →
      ∀ u ∈ tuples, ∃ p ∈ sp, u.1 = p.1 := by
  intro sp
  induction sp with
  | nil =>
    intro tuples hc u hu
    unfold collectFlushTuples at hc
    cases Option.some.inj hc
    exact absurd hu (by simp)
  | cons p0 rest ih =>
    intro tuples hc u hu
    obtain ⟨schema0, m0⟩ := p0
    unfold collectFlushTuples at hc
    cases h1 : collectTableTuples cp schema0 excepts m0 with
    | none =>
      rw [h1] at hc
      exact Option.noConfusion hc
    | some l1 =>
      rw [h1] at hc
      cases h2 : collectFlushTuples cp excepts rest with
      | none =>
        rw [h2] at hc
        exact Option.noConfusion hc
      | some l2 =>
        rw [h2] at hc
        have htup : tuples = l1.map (fun q => (schema0, q)) ++ l2 :=
          (Option.some.inj hc).symm
        subst htup
        rcases List.mem_append.mp hu with h | h
        · obtain ⟨q, _, hq⟩ := List.mem_map.mp h
          refine ⟨(schema0, m0), List.mem_cons_self _ _, ?_⟩
          rw [← hq]
        · obtain ⟨p, hp, he⟩ := ih h2 u h
          exact ⟨p, List.mem_cons_of_mem _ hp, he⟩

theorem collectFlushTuples_char {cp : RemoteCheckPoint} {excepts : List (String × String)} :
    ∀ {sp : List (String × List (String × TablePoint))}
      {tuples : List (String × String × BinlogPoint × TablePoint)},
      collectFlushTuples cp excepts sp = some tuples →
      sp.Pairwise (fun p q => p.1 ≠ q.1) →
      (∀ p ∈ sp, p.2.Pairwise (fun a b => a.1 ≠ b.1)) →
      (tuples.Pairwise (fun u v => ¬(u.1 = v.1 ∧ u.2.1 = v.2.1))) ∧
      (∀ s t bp tp, findTuple tuples s t = some (bp, tp) ↔
        (lookupTP sp s t = some tp ∧ excepts.contains (s, t) = false ∧
         lookupTable cp.points s t = some bp ∧ bp.outOfDateBy tp.location = true)) := by
  intro sp
  induction sp with
  | nil =>
    intro tuples hc _ _
    unfold collectFlushTuples at hc
    cases Option.some.inj hc
    refine ⟨List.Pairwise.nil, ?_⟩
    intro s t bp tp
    constructor
    · intro h
      exact Option.noConfusion h
    · rintro ⟨h1, _⟩
      exact Option.noConfusion h1
  | cons p0 rest ih =>
    intro tuples hc hpw hinner
    obtain ⟨schema0, m0⟩ := p0
    rw [List.pairwise_cons] at hpw
    unfold collectFlushTuples at hc
    cases h1 : collectTableTuples cp schema0 excepts m0 with
    | none =>
      rw [h1] at hc
      exact absurd hc (by simp)
    | some l1 =>
      rw [h1] at hc
      cases h2 : collectFlushTuples cp excepts rest with
      | none =>
        rw [h2] at hc
        exact absurd hc (by simp)
      | some l2 =>
        rw [h2] at hc
        have htup : tuples = l1.map (fun q => (schema0, q)) ++ l2 :=
          (Option.some.inj hc).symm
        subst htup
        obtain ⟨hpl1, hiff1⟩ := collectTableTuples_char h1
          (hinner (schema0, m0) (List.mem_cons_self _ _))
        obtain ⟨hpl2, hiff2⟩ := ih h2 hpw.2 (fun p hp => hinner p (List.mem_cons_of_mem _ hp))
        constructor
        · rw [List.pairwise_append]
          refine ⟨?_, hpl2, ?_⟩
          · exact List.Pairwise.map _ (fun a b hab hc2 => hab (by
              rw [show ((schema0, a) : String × String × BinlogPoint × TablePoint).2.1 = a.1
                from rfl, show ((schema0, b) :
                  String × String × BinlogPoint × TablePoint).2.1 = b.1 from rfl] at hc2
              exact hc2.2)) hpl1
          · intro u hu v hv
            obtain ⟨q, _, hq⟩ := List.mem_map.mp hu
            obtain ⟨p, hp, he⟩ := collectFlushTuples_keys h2 v hv
            intro hco
            have : u.1 = schema0 := by rw [← hq]
            rw [this, he] at hco
            exact hpw.1 p hp hco.1
        · intro s t bp tp
          rw [findTuple_append, findTuple_map_schema]
          by_cases hs : s = schema0
          · rw [if_pos hs]
            subst hs
            show (match l1.lookup t with
              | some r => some r
              | none => findTuple l2 s t) = some (bp, tp) ↔ _
            have hrestnone : rest.lookup s = none :=
              lookup_keys_none (fun q hq => (hpw.1 q hq).symm)
            have hfind2 : findTuple l2 s t = none := by
              cases hf : findTuple l2 s t with
              | none => rfl
              | some r =>
                exfalso
                obtain ⟨bp2, tp2⟩ := r
                have := ((hiff2 s t bp2 tp2).mp hf).1
                unfold lookupTP at this
                rw [hrestnone] at this
                exact Option.noConfusion this
            cases hl1 : l1.lookup t with
            | none =>
              rw [hfind2]
              show (none : Option (BinlogPoint × TablePoint)) = some (bp, tp) ↔ _
              constructor
              · intro h
                exact Option.noConfusion h
              · rintro ⟨ha, hb2, hc2, hd⟩
                have : lookupTP ((s, m0) :: rest) s t = m0.lookup t := by
                  unfold lookupTP
                  rw [lookup_cons, if_pos rfl]
                rw [this] at ha
                have := (hiff1 t bp tp).mpr ⟨ha, hb2, hc2, hd⟩
                rw [hl1] at this
                exact Option.noConfusion this
            | some r =>
              obtain ⟨bp1, tp1⟩ := r
              show some (bp1, tp1) = some (bp, tp) ↔ _
              have hm0 : lookupTP ((s, m0) :: rest) s t = m0.lookup t := by
                unfold lookupTP
                rw [lookup_cons, if_pos rfl]
              rw [hm0]
              constructor
              · intro h
                have hpair := Option.some.inj h
                rw [Prod.mk.injEq] at hpair
                rw [← hpair.1, ← hpair.2]
                exact (hiff1 t bp1 tp1).mp hl1
              · intro hr
                have := (hiff1 t bp tp).mpr hr
                rw [hl1] at this
                exact this
          · rw [if_neg hs]
            show (match (none : Option (BinlogPoint × TablePoint)) with
              | some r => some r
              | none => findTuple l2 s t) = some (bp, tp) ↔ _
            have hsp : lookupTP ((schema0, m0) :: rest) s t = lookupTP rest s t := by
              unfold lookupTP
              rw [lookup_cons, if_neg hs]
            rw [hsp]
            exact hiff2 s t bp tp

theorem collectTableTuples_isSome {cp : RemoteCheckPoint} {schema : String}
    {excepts : List (String × String)} :
    ∀ {m : List (String × TablePoint)},
      (∀ q ∈ m, excepts.contains (schema, q.1) = true ∨
        (lookupTable cp.points schema q.1).isSome = true) →
      ∃ l, collectTableTuples cp schema excepts m = some l := by
  intro m
  induction m with
  | nil => intro _; exact ⟨[], rfl⟩
  | cons q0 rest ih =>
    intro hcov
    obtain ⟨t0, tp0⟩ := q0
    obtain ⟨l0, hl0⟩ := ih (fun q hq => hcov q (List.mem_cons_of_mem _ hq))
    by_cases hex : excepts.contains (schema, t0) = true
    · refine ⟨l0, ?_⟩
      unfold collectTableTuples
      rw [if_pos hex]
      exact hl0
    · rcases hcov (t0, tp0) (List.mem_cons_self _ _) with h | h
      · exact absurd h hex
      · cases hlk : lookupTable cp.points schema t0 with
        | none =>
          rw [hlk] at h
          exact absurd h (by simp)
        | some bp =>
          refine ⟨if bp.outOfDateBy tp0.location then (t0, bp, tp0) :: l0 else l0, ?_⟩
          unfold collectTableTuples
          rw [if_neg hex, hlk, hl0]

theorem collectFlushTuples_isSome {cp : RemoteCheckPoint} {excepts : List (String × String)} :
    ∀ {sp : List (String × List (String × TablePoint))},
      (∀ p ∈ sp, ∀ q ∈ p.2, excepts.contains (p.1, q.1) = true ∨
        (lookupTable cp.points p.1 q.1).isSome = true) →
      ∃ tuples, collectFlushTuples cp excepts sp = some tuples := by
  intro sp
  induction sp with
  | nil => intro _; exact ⟨[], rfl⟩
  | cons p0 rest ih =>
    intro hcov
    obtain ⟨schema0, m0⟩ := p0
    obtain ⟨l1, hl1⟩ := collectTableTuples_isSome
      (fun q hq => hcov (schema0, m0) (List.mem_cons_self _ _) q hq)
    obtain ⟨l2, hl2⟩ := ih (fun p hp q hq => hcov p (List.mem_cons_of_mem _ hp) q hq)
    refine ⟨l1.map (fun q => (schema0, q)) ++ l2, ?_⟩
    unfold collectFlushTuples
    rw [hl1, hl2]

theorem lookup_flushFold :
    ∀ (tuples : List (String × String × BinlogPoint × TablePoint)) (pts : PointsMap),
      tuples.Pairwise (fun u v => ¬(u.1 = v.1 ∧ u.2.1 = v.2.1)) →
      ∀ s t, lookupTable (tuples.foldl
          (fun ps u => setTable ps u.1 u.2.1 (u.2.2.1.flushBy u.2.2.2)) pts) s t =
        (match findTuple tuples s t with
         | some r => some (r.1.flushBy r.2)
         | none => lookupTable pts s t) := by
  intro tuples
  induction tuples with
  | nil => intro pts _ s t; rfl
  | cons u rest ih =>
    intro pts hpw s t
    rw [List.pairwise_cons] at hpw
    rw [List.foldl_cons]
    rw [ih (setTable pts u.1 u.2.1 (u.2.2.1.flushBy u.2.2.2)) hpw.2 s t]
    by_cases hc : u.1 = s ∧ u.2.1 = t
    · have hfr : findTuple rest s t = none := by
        apply findTuple_none_of
        intro v hv hvc
        exact hpw.1 v hv (by rw [hc.1, hc.2, hvc.1, hvc.2]; exact ⟨rfl, rfl⟩)
      rw [hfr]
      have hfu : findTuple (u :: rest) s t = some u.2.2 := by
        show (if u.1 = s ∧ u.2.1 = t then some u.2.2 else findTuple rest s t) = some u.2.2
        rw [if_pos hc]
      rw [hfu]
      show lookupTable (setTable pts u.1 u.2.1 (u.2.2.1.flushBy u.2.2.2)) s t =
        some (u.2.2.1.flushBy u.2.2.2)
      rw [← hc.1, ← hc.2]
      exact lookupTable_setTable_self _ _ _ _
    · have hfu : findTuple (u :: rest) s t = findTuple rest s t := by
        show (if u.1 = s ∧ u.2.1 = t then some u.2.2 else findTuple rest s t) = _
        rw [if_neg hc]
      rw [hfu]
      cases hfr : findTuple rest s t with
      | some r => rfl
      | none =>
        show lookupTable (setTable pts u.1 u.2.1 (u.2.2.1.flushBy u.2.2.2)) s t =
          lookupTable pts s t
        apply lookupTable_setTable_ne
        by_cases h1 : s = u.1
        · refine Or.inr ?_
          intro h2
          exact hc ⟨h1.symm, h2.symm⟩
        · exact Or.inl h1

theorem flushPointsExcept_cons {cp : RemoteCheckPoint} {snap : RemoteCheckpointSnapshot}
    {rest : List RemoteCheckpointSnapshot} (snapshotID : Nat)
    (excepts : List (String × String)) (execOK : Bool) (h : cp.snapshots = snap :: rest) :
    cp.flushPointsExcept snapshotID excepts execOK =
      (if snap.id ≠ snapshotID then none
       else
         match collectFlushTuples { cp with snapshots := rest } excepts snap.points with
         | none => none
         | some tuples =>
             if !execOK then some (false, { cp with snapshots := rest })
             else
               match snap.globalPoint with
               | some gp =>
                   some (true, { cp with
                       snapshots := rest
                       globalPoint := cp.globalPoint.flushBy gp
                       globalPointSaveTime := snap.globalPointSaveTime
                       points := tuples.foldl
                         (fun pts u => setTable pts u.1 u.2.1 (u.2.2.1.flushBy u.2.2.2))
                         cp.points
                       needFlushSafeModeExitPoint := false })
               | none =>
                   some (true, { cp with
                       snapshots := rest
                       points := tuples.foldl
                         (fun pts u => setTable pts u.1 u.2.1 (u.2.2.1.flushBy u.2.2.2))
                         cp.points
                       needFlushSafeModeExitPoint := false })) := by
  unfold RemoteCheckPoint.flushPointsExcept
  rw [h]

/-- Claim C4: `FlushPointsExcept(id, exceptTables, …)` raises a fatal
condition when the snapshot queue is empty or the head id differs from
`id`; otherwise the head is consumed (the queue shrinks by exactly one,
also on a failed batch execution); on successful execution each snapshot
table entry not excepted has its flushed point advanced to the snapshot
value exactly when the live entry was still out of date with respect to
that value, the global flushed point is advanced from the snapshot global
point when present, and afterwards every advanced entry — and the global
entry — satisfies flushed ≤ saved, given that live saved locations have
not fallen behind the snapshot. -/
theorem claim_C4 (cp : RemoteCheckPoint) (snapshotID : Nat)
    (excepts : List (String × String)) (execOK : Bool) :
    (cp.snapshots = [] → cp.flushPointsExcept snapshotID excepts execOK = none) ∧
    (∀ snap rest, cp.snapshots = snap :: rest → snap.id ≠ snapshotID →
      cp.flushPointsExcept snapshotID excepts execOK = none) ∧
    (∀ snap rest, cp.snapshots = snap :: rest → snap.id = snapshotID →
      snap.points.Pairwise (fun p q => p.1 ≠ q.1) →
      (∀ p ∈ snap.points, p.2.Pairwise (fun a b => a.1 ≠ b.1)) →
      flushCovered cp excepts snap →
      ∃ cp2, cp.flushPointsExcept snapshotID excepts execOK = some (execOK, cp2) ∧
        cp2.snapshots = rest ∧
        (execOK = false → cp2 = { cp with snapshots := rest }) ∧
        (execOK = true →
          ((∀ gp, snap.globalPoint = some gp →
             cp2.globalPoint = cp.globalPoint.flushBy gp ∧
             cp2.globalPointSaveTime = snap.globalPointSaveTime) ∧
           (snap.globalPoint = none → cp2.globalPoint = cp.globalPoint ∧
             cp2.globalPointSaveTime = cp.globalPointSaveTime) ∧
           cp2.needFlushSafeModeExitPoint = false ∧
           (∀ s t tp bp, lookupTP snap.points s t = some tp →
             excepts.contains (s, t) = false →
             lookupTable cp.points s t = some bp →
             bp.outOfDateBy tp.location = true →
             lookupTable cp2.points s t = some (bp.flushBy tp)) ∧
           (∀ s t, (lookupTP snap.points s t = none ∨ excepts.contains (s, t) = true ∨
             (∀ tp bp, lookupTP snap.points s t = some tp →
               lookupTable cp.points s t = some bp →
               bp.outOfDateBy tp.location = false)) →
             lookupTable cp2.points s t = lookupTable cp.points s t) ∧
           (flushCoherent cp snap →
             (∀ s t tp bp, lookupTP snap.points s t = some tp →
               excepts.contains (s, t) = false →
               lookupTable cp.points s t = some bp →
               bp.outOfDateBy tp.location = true →
               ∀ bp2, lookupTable cp2.points s t = some bp2 →
                 0 ≤ CompareLocation bp2.savedPoint.location bp2.flushedPoint.location
                   bp2.enableGTID) ∧
             (∀ gp, snap.globalPoint = some gp →
               0 ≤ CompareLocation cp2.globalPoint.savedPoint.location
                 cp2.globalPoint.flushedPoint.location cp2.globalPoint.enableGTID))))) := by
  refine ⟨?_, ?_, ?_⟩
  · intro h
    unfold RemoteCheckPoint.flushPointsExcept
    rw [h]
  · intro snap rest hsn hne
    rw [flushPointsExcept_cons snapshotID excepts execOK hsn, if_pos hne]
  · intro snap rest hsn hid hsp1 hsp2 hcov
    rw [flushPointsExcept_cons snapshotID excepts execOK hsn,
      if_neg (not_not_intro hid)]
    obtain ⟨tuples, hcol⟩ := @collectFlushTuples_isSome { cp with snapshots := rest }
      excepts snap.points (fun p hp q hq => hcov p hp q hq)
    rw [hcol]
    obtain ⟨hptw, hpfind⟩ := collectFlushTuples_char hcol hsp1 hsp2
    have hfold := lookup_flushFold tuples cp.points hptw
    cases hexec : execOK with
    | false =>
      refine ⟨{ cp with snapshots := rest }, ?_, rfl, fun _ => rfl, ?_⟩
      · rfl
      · intro h
        exact absurd h (by simp)
    | true =>
      have hmain : ∀ cp2 : RemoteCheckPoint,
          cp2.points = tuples.foldl
            (fun pts u => setTable pts u.1 u.2.1 (u.2.2.1.flushBy u.2.2.2)) cp.points →
          ((∀ s t tp bp, lookupTP snap.points s t = some tp →
             excepts.contains (s, t) = false →
             lookupTable cp.points s t = some bp →
             bp.outOfDateBy tp.location = true →
             lookupTable cp2.points s t = some (bp.flushBy tp)) ∧
           (∀ s t, (lookupTP snap.points s t = none ∨ excepts.contains (s, t) = true ∨
             (∀ tp bp, lookupTP snap.points s t = some tp →
               lookupTable cp.points s t = some bp →
               bp.outOfDateBy tp.location = false)) →
             lookupTable cp2.points s t = lookupTable cp.points s t)) := by
        intro cp2 hpts
        constructor
        · intro s t tp bp h1 h2 h3 h4
          have hft : findTuple tuples s t = some (bp, tp) :=
            (hpfind s t bp tp).mpr ⟨h1, h2, h3, h4⟩
          rw [hpts, hfold s t, hft]
        · intro s t hdisj
          have hft : findTuple tuples s t = none := by
            cases hft : findTuple tuples s t with
            | none => rfl
            | some r =>
              exfalso
              obtain ⟨bpx, tpx⟩ := r
              obtain ⟨ha, hb, hc2, hd⟩ := (hpfind s t bpx tpx).mp hft
              rcases hdisj with h | h | h
              · rw [h] at ha
                exact Option.noConfusion ha
              · rw [h] at hb
                exact absurd hb (by simp)
              · rw [h tpx bpx ha hc2] at hd
                exact absurd hd (by simp)
          rw [hpts, hfold s t, hft]
      have hcohlem : ∀ cp2 : RemoteCheckPoint,
          cp2.points = tuples.foldl
            (fun pts u => setTable pts u.1 u.2.1 (u.2.2.1.flushBy u.2.2.2)) cp.points →
          flushCoherent cp snap →
          (∀ s t tp bp, lookupTP snap.points s t = some tp →
            excepts.contains (s, t) = false →
            lookupTable cp.points s t = some bp →
            bp.outOfDateBy tp.location = true →
            ∀ bp2, lookupTable cp2.points s t = some bp2 →
              0 ≤ CompareLocation bp2.savedPoint.location bp2.flushedPoint.location
                bp2.enableGTID) := by
        intro cp2 hpts hcoh s t tp bp h1 h2 h3 h4 bp2 hbp2
        have hadv := (hmain cp2 hpts).1 s t tp bp h1 h2 h3 h4
        rw [hadv] at hbp2
        have hbp2e : bp2 = bp.flushBy tp := (Option.some.inj hbp2).symm
        subst hbp2e
        have hm : ∃ m, snap.points.lookup s = some m ∧ m.lookup t = some tp := by
          unfold lookupTP at h1
          cases hls : snap.points.lookup s with
          | none => rw [hls] at h1; exact Option.noConfusion h1
          | some m => rw [hls] at h1; exact ⟨m, rfl, h1⟩
        obtain ⟨m, hls, hlt⟩ := hm
        have hall := hcoh.1 (s, m) (lookup_mem hls) (t, tp) (lookup_mem hlt)
        rw [h3] at hall
        have := of_decide_eq_true hall
        exact this
      cases hgp : snap.globalPoint with
      | some gp =>
        refine ⟨{ cp with
            snapshots := rest
            globalPoint := cp.globalPoint.flushBy gp
            globalPointSaveTime := snap.globalPointSaveTime
            points := tuples.foldl
              (fun pts u => setTable pts u.1 u.2.1 (u.2.2.1.flushBy u.2.2.2)) cp.points
            needFlushSafeModeExitPoint := false }, rfl, rfl, ?_, ?_⟩
        · intro h
          exact absurd h (by simp)
        · intro _
          refine ⟨?_, ?_, rfl, (hmain _ rfl).1, (hmain _ rfl).2, ?_⟩
          · intro gp2 hgp2
            cases Option.some.inj hgp2
            exact ⟨rfl, rfl⟩
          · intro hnone
            exact Option.noConfusion hnone
          · intro hcoh
            refine ⟨hcohlem _ rfl hcoh, ?_⟩
            intro gp2 hgp2
            cases Option.some.inj hgp2
            have hall := hcoh.2
            rw [hgp] at hall
            have := of_decide_eq_true hall
            exact this
      | none =>
        refine ⟨{ cp with
            snapshots := rest
            points := tuples.foldl
              (fun pts u => setTable pts u.1 u.2.1 (u.2.2.1.flushBy u.2.2.2)) cp.points
            needFlushSafeModeExitPoint := false }, rfl, rfl, ?_, ?_⟩
        · intro h
          exact absurd h (by simp)
        · intro _
          refine ⟨?_, fun _ => ⟨rfl, rfl⟩, rfl, (hmain _ rfl).1, (hmain _ rfl).2, ?_⟩
          · intro gp2 hgp2
            exact Option.noConfusion hgp2
          · intro hcoh
            refine ⟨hcohlem _ rfl hcoh, ?_⟩
            intro gp2 hgp2
            exact Option.noConfusion hgp2

/-- Witness for C4 at a concrete engine with one queued snapshot: the flush
consumes the queue, advances the table entry to the snapshot value, and
advances the global flushed point. -/
theorem claim_C4_witness :
    ∃ cp2, cpQueued.flushPointsExcept 1 [] true = some (true, cp2) ∧
      cp2.snapshots = [] ∧
      lookupTable cp2.points "db" "tbl" =
        some (bpTable.flushBy { location := loc2, ti := some ti1 }) ∧
      cp2.globalPoint = cpQueued.globalPoint.flushBy { location := loc2, ti := none } := by
  obtain ⟨cp2, hres, hsnaps, _, htrue⟩ :=
    (claim_C4 cpQueued 1 [] true).2.2 snapOne [] rfl rfl (by decide) (by decide)
      (by unfold flushCovered; decide)
  have hx := htrue rfl
  refine ⟨cp2, hres, hsnaps, ?_, (hx.1 { location := loc2, ti := none } rfl).1⟩
  exact hx.2.2.2.1 "db" "tbl" { location := loc2, ti := some ti1 } bpTable
    (by decide) rfl (by decide) (by decide)

/-! ### Storage-actor write batching (claim C8) -/

/-- The commit in `maybeWrite` moves pending records to `committed` and
empties the batch, so the observable record stream is unchanged. -/
theorem maybeWrite_stream (ldb : DBActor) (force : Bool) :
    (ldb.maybeWrite force).stream = ldb.stream := by
  simp only [DBActor.maybeWrite]
  split
  · simp only [DBActor.stream]
    split <;> simp [Batch.reset, newBatch]
  · rfl

/-- The `maybeWrite` step never changes the configured sizes or the
compaction oracle. -/
theorem maybeWrite_fields (ldb : DBActor) (force : Bool) :
    (ldb.maybeWrite force).wbSize = ldb.wbSize ∧
    (ldb.maybeWrite force).wbCap = ldb.wbCap ∧
    (ldb.maybeWrite force).compactAccepts = ldb.compactAccepts := by
  simp only [DBActor.maybeWrite]
  split
  · exact ⟨rfl, rfl, rfl⟩
  · exact ⟨rfl, rfl, rfl⟩

/-- When the compaction scheduler rejects the current delete count,
`maybeWrite` leaves the delete count unchanged. -/
theorem maybeWrite_deleteCount (ldb : DBActor) (force : Bool)
    (hnc : ldb.compactAccepts ldb.deleteCount = false) :
    (ldb.maybeWrite force).deleteCount = ldb.deleteCount := by
  simp only [DBActor.maybeWrite]
  split
  · simp [hnc]
  · rfl

/-- One event appends exactly its record to the observable stream. -/
theorem applyEvent_stream (ldb : DBActor) (k v : String) :
    (ldb.applyEvent k v).stream = ldb.stream ++ [eventOp (k, v)] := by
  by_cases h : v.length ≠ 0
  · have h1 : ldb.applyEvent k v =
        ({ ldb with wb := ldb.wb.put k v }).maybeWrite false := by
      simp only [DBActor.applyEvent]
      rw [if_pos h]
    rw [h1, maybeWrite_stream]
    simp [DBActor.stream, Batch.put, eventOp, h]
  · have h0 : v.length = 0 := not_not.mp h
    have h1 : ldb.applyEvent k v =
        ({ ldb with
            wb := ldb.wb.deleteKey k
            deleteCount := ldb.deleteCount + 1 }).maybeWrite false := by
      simp only [DBActor.applyEvent]
      rw [if_neg h]
    rw [h1, maybeWrite_stream]
    simp [DBActor.stream, Batch.deleteKey, eventOp, h0]

/-- One event raises the delete count exactly for an empty value, and keeps
the configured sizes and the compaction oracle, when compaction never
triggers. -/
theorem applyEvent_fields (ldb : DBActor) (k v : String)
    (hnc : ∀ n, ldb.compactAccepts n = false) :
    (ldb.applyEvent k v).deleteCount =
      ldb.deleteCount + (if v.length = 0 then 1 else 0) ∧
    (ldb.applyEvent k v).compactAccepts = ldb.compactAccepts ∧
    (ldb.applyEvent k v).wbSize = ldb.wbSize ∧
    (ldb.applyEvent k v).wbCap = ldb.wbCap := by
  by_cases h : v.length ≠ 0
  · have h1 : ldb.applyEvent k v =
        ({ ldb with wb := ldb.wb.put k v }).maybeWrite false := by
      simp only [DBActor.applyEvent]
      rw [if_pos h]
    rw [h1]
    refine ⟨?_, (maybeWrite_fields _ _).2.2, (maybeWrite_fields _ _).1,
      (maybeWrite_fields _ _).2.1⟩
    rw [maybeWrite_deleteCount { ldb with wb := ldb.wb.put k v } false
      (hnc ldb.deleteCount)]
    simp [h]
  · have h0 : v.length = 0 := not_not.mp h
    have h1 : ldb.applyEvent k v =
        ({ ldb with
            wb := ldb.wb.deleteKey k
            deleteCount := ldb.deleteCount + 1 }).maybeWrite false := by
      simp only [DBActor.applyEvent]
      rw [if_neg h]
    rw [h1]
    refine ⟨?_, (maybeWrite_fields _ _).2.2, (maybeWrite_fields _ _).1,
      (maybeWrite_fields _ _).2.1⟩
    rw [maybeWrite_deleteCount
      { ldb with wb := ldb.wb.deleteKey k, deleteCount := ldb.deleteCount + 1 }
      false (hnc (ldb.deleteCount + 1))]
    simp [h0]

/-- Over an event list, the observable stream gains exactly one record per
event, in order. -/
theorem processEvents_stream (events : List (String × String)) :
    ∀ ldb : DBActor, (ldb.processEvents events).stream =
      ldb.stream ++ events.map eventOp := by
  induction events with
  | nil => intro ldb; simp [DBActor.processEvents]
  | cons e rest ih =>
    intro ldb
    have h1 : ldb.processEvents (e :: rest) =
        (ldb.applyEvent e.1 e.2).processEvents rest := rfl
    rw [h1, ih, applyEvent_stream]
    simp

/-- Over an event list, when compaction never triggers, the delete count
grows by exactly the number of empty-valued events. -/
theorem processEvents_deleteCount (events : List (String × String)) :
    ∀ ldb : DBActor, (∀ n, ldb.compactAccepts n = false) →
      ((ldb.processEvents events).deleteCount =
        ldb.deleteCount +
          (events.filter (fun p => decide (p.2.length = 0))).length ∧
       (ldb.processEvents events).compactAccepts = ldb.compactAccepts) := by
  induction events with
  | nil => intro ldb hnc; exact ⟨by simp [DBActor.processEvents], rfl⟩
  | cons e rest ih =>
    intro ldb hnc
    have h1 : ldb.processEvents (e :: rest) =
        (ldb.applyEvent e.1 e.2).processEvents rest := rfl
    obtain ⟨hd, hc, _, _⟩ := applyEvent_fields ldb e.1 e.2 hnc
    have hnc2 : ∀ n, (ldb.applyEvent e.1 e.2).compactAccepts n = false := by
      intro n; rw [hc]; exact hnc n
    obtain ⟨ih1, ih2⟩ := ih (ldb.applyEvent e.1 e.2) hnc2
    constructor
    · rw [h1, ih1, hd]
      by_cases h0 : e.2.length = 0
      · simp [List.filter, h0]
        omega
      · simp [List.filter, h0]
    · rw [h1, ih2, hc]

/-- Claim C8: in the storage actor, an event with an empty value appends a
delete record to the write batch and increments the delete count, while a
non-empty value appends a put record; `maybeWrite false` commits exactly
when the batch byte size reaches the threshold of blockSize times 16, and
`maybeWrite true` also commits any non-empty batch; after a commit the
pending records move to the committed stream and the batch is reset in
place exactly when its capacity is at most twice the threshold, otherwise
a fresh batch of capacity twice the threshold is allocated; processing an
event list appends exactly the corresponding records to the observable
stream and, when compaction never triggers, adds the number of
empty-valued events to the delete count. -/
theorem claim_C8 (ldb : DBActor) (blockSize : Nat)
    (hsz : ldb.wbSize = blockSize * 16) (hcap : ldb.wbCap = 2 * ldb.wbSize) :
    (∀ k v, v.length = 0 →
      ldb.applyEvent k v =
        ({ ldb with
            wb := ldb.wb.deleteKey k
            deleteCount := ldb.deleteCount + 1 }).maybeWrite false) ∧
    (∀ k v, v.length ≠ 0 →
      ldb.applyEvent k v = ({ ldb with wb := ldb.wb.put k v }).maybeWrite false) ∧
    (∀ events, (ldb.processEvents events).stream =
      ldb.stream ++ events.map eventOp) ∧
    ((∀ n, ldb.compactAccepts n = false) → ∀ events,
      (ldb.processEvents events).deleteCount =
        ldb.deleteCount +
          (events.filter (fun p => decide (p.2.length = 0))).length) ∧
    (∀ force, (ldb.maybeWrite force).stream = ldb.stream) ∧
    (ldb.wb.reprLen < blockSize * 16 → ldb.maybeWrite false = ldb) ∧
    (ldb.wb.reprLen < blockSize * 16 → ldb.wb.reprLen = 0 →
      ldb.maybeWrite true = ldb) ∧
    (∀ force, blockSize * 16 ≤ ldb.wb.reprLen ∨
        (force = true ∧ ldb.wb.reprLen ≠ 0) →
      (ldb.maybeWrite force).committed = ldb.committed ++ ldb.wb.ops ∧
      (ldb.maybeWrite force).wb =
        (if ldb.wb.cap ≤ 2 * (blockSize * 16) then ldb.wb.reset
         else newBatch (2 * (blockSize * 16))) ∧
      (ldb.maybeWrite force).deleteCount =
        (if ldb.compactAccepts ldb.deleteCount then 0 else ldb.deleteCount)) := by
  refine ⟨?_, ?_, ?_, ?_, ?_, ?_, ?_, ?_⟩
  · intro k v h
    simp only [DBActor.applyEvent]
    rw [if_neg (not_not_intro h)]
  · intro k v h
    simp only [DBActor.applyEvent]
    rw [if_pos h]
  · intro events
    exact processEvents_stream events ldb
  · intro hnc events
    exact (processEvents_deleteCount events ldb hnc).1
  · intro force
    exact maybeWrite_stream ldb force
  · intro h
    have hb : ¬ (ldb.wbSize ≤ ldb.wb.reprLen ∨
        (false = true ∧ ldb.wb.reprLen ≠ 0)) := by
      rintro (hle | ⟨hf, _⟩)
      · rw [hsz] at hle
        exact absurd h (not_lt.mpr hle)
      · exact Bool.noConfusion hf
    simp only [DBActor.maybeWrite]
    rw [if_neg hb]
  · intro h h0
    have hb : ¬ (ldb.wbSize ≤ ldb.wb.reprLen ∨
        (True ∧ ldb.wb.reprLen ≠ 0)) := by
      rintro (hle | ⟨_, hne⟩)
      · rw [hsz] at hle
        exact absurd h (not_lt.mpr hle)
      · exact hne h0
    simp only [DBActor.maybeWrite]
    rw [if_neg hb]
  · intro force hcond
    have hb : ldb.wbSize ≤ ldb.wb.reprLen ∨
        (force = true ∧ ldb.wb.reprLen ≠ 0) := by
      rcases hcond with hle | hr
      · exact Or.inl (by rw [hsz]; exact hle)
      · exact Or.inr hr
    refine ⟨?_, ?_, ?_⟩
    · simp only [DBActor.maybeWrite]
      rw [if_pos hb]
    · rw [← hsz, ← hcap]
      simp only [DBActor.maybeWrite]
      rw [if_pos hb]
    · simp only [DBActor.maybeWrite]
      rw [if_pos hb]

/-- Witness for C8 at a concrete one-block actor: two events, a put and a
delete, land on the stream in order and bump the delete count by one. -/
theorem claim_C8_witness :
    dbActorW.wbSize = 1 * 16 ∧ dbActorW.wbCap = 2 * dbActorW.wbSize ∧
    (dbActorW.processEvents [("k", "vv"), ("d", "")]).stream =
      [BatchOp.put "k" "vv", BatchOp.del "d"] ∧
    (dbActorW.processEvents [("k", "vv"), ("d", "")]).deleteCount = 1 := by
  refine ⟨rfl, rfl, ?_, ?_⟩
  · rw [(claim_C8 dbActorW 1 rfl rfl).2.2.1 [("k", "vv"), ("d", "")]]
    rfl
  · rw [(claim_C8 dbActorW 1 rfl rfl).2.2.2.1 (fun n => rfl)
      [("k", "vv"), ("d", "")]]
    rfl

end Tiflow
